import Mathlib

/-!
Verification of the Texas Hold'em room/player store (`MemStorage`) and game
session manager (`PokerGameManager`).

Modelling conventions, all taken from the source:
* JS `Map`s are modelled as association lists (`List (Nat × _)`) with
  insertion-order iteration, which `aGet`/`aSet`/`aUpd`/`aDel` mirror.
* `randomUUID` ids and socket ids are modelled as naturals; the store carries a
  `nextId` counter so that freshly generated ids are new.
* JS numbers (`chips`, `pot`, `currentBet`, player counts) are modelled as `Int`.
* Fields stored as JSON-encoded text (`deck`, `hand`, `communityCards`) are
  modelled by their decoded payload, `none` standing for SQL/JS null.
* `Math.random` is modelled by an oracle `rand : Nat → Nat`; the Fisher-Yates
  index `Math.floor(Math.random() * (i + 1))` becomes `rand i % (i + 1)`.
* The manager's local `room`/`player` variables alias the live store records
  (JS object references), so every field read that happens after a storage
  mutation is modelled by re-reading the record from the updated store.
* Timestamp fields (`createdAt`, `joinedAt`) are omitted: no modelled
  operation reads them.
-/

/-- Lookup in a JS-`Map`-style association list (`Map.get`). -/
def aGet {α : Type} (m : List (Nat × α)) (k : Nat) : Option α :=
  match m with
  | [] => none
  | kv :: rest => if kv.1 = k then some kv.2 else aGet rest k

/-- Insert-or-replace (`Map.set`): an existing key keeps its position,
a new key is appended, matching JS `Map` insertion-order semantics. -/
def aSet {α : Type} (m : List (Nat × α)) (k : Nat) (v : α) : List (Nat × α) :=
  match m with
  | [] => [(k, v)]
  | kv :: rest => if kv.1 = k then (k, v) :: rest else kv :: aSet rest k v

/-- In-place update of the value at a key, identity when the key is absent.
This is how `const x = map.get(k); if (x) mutate(x)` acts on the map. -/
def aUpd {α : Type} (m : List (Nat × α)) (k : Nat) (f : α → α) : List (Nat × α) :=
  m.map fun kv => if kv.1 = k then (kv.1, f kv.2) else kv

/-- Key removal (`Map.delete`). -/
def aDel {α : Type} (m : List (Nat × α)) (k : Nat) : List (Nat × α) :=
  match m with
  | [] => []
  | kv :: rest => if kv.1 = k then aDel rest k else kv :: aDel rest k

/-! ## Data model (shared/schema.ts) -/

inductive Suit
  | spades | hearts | diamonds | clubs
  deriving DecidableEq, Repr

inductive CardValue
  | vA | v2 | v3 | v4 | v5 | v6 | v7 | v8 | v9 | v10 | vJ | vQ | vK
  deriving DecidableEq, Repr

/-- A playing card; the uuid in `id` is modelled as a natural number. -/
structure Card where
  suit : Suit
  value : CardValue
  id : Nat
  deriving DecidableEq, Repr

/-- A `rooms` row. `deck`/`communityCards` hold the decoded JSON payload. -/
structure Room where
  id : Nat
  code : String
  hostId : Nat
  maxPlayers : Int
  currentPlayers : Int
  gameState : String
  pot : Int
  currentBet : Int
  round : String
  deck : Option (List Card)
  communityCards : Option (List Card)
  deriving DecidableEq, Repr

/-- A `players` row. `hand` holds the decoded JSON payload. -/
structure Player where
  id : Nat
  roomId : Nat
  socketId : Nat
  name : String
  chips : Int
  hand : Option (List Card)
  isConnected : Bool
  isReady : Bool
  hasActed : Bool
  currentBet : Int
  position : Option Int
  isFolded : Bool
  deriving DecidableEq, Repr

/-- The `MemStorage` state: its four maps plus the fresh-uuid counter. -/
structure Store where
  rooms : List (Nat × Room)
  players : List (Nat × Player)
  playersBySocket : List (Nat × Nat)
  playersByRoom : List (Nat × List Nat)
  nextId : Nat
  deriving DecidableEq, Repr

structure InsertRoom where
  code : String
  hostId : Nat
  maxPlayers : Int

structure InsertPlayer where
  roomId : Nat
  socketId : Nat
  name : String
  chips : Int

/-- The optional-field record accepted by `updateRoomGameState`. -/
structure RoomGameStateUpdates where
  gameState : Option String := none
  round : Option String := none
  pot : Option Int := none
  currentBet : Option Int := none
  deck : Option (List Card) := none
  communityCards : Option (List Card) := none

/-- Ghost event log entries: each `Ev.bet rid d` records one
`updatePlayerBet` application whose pot target is room key `rid`; each
`Ev.deal rid` records one successful `dealCards` pot reset at room key `rid`.
Events never influence the store. -/
inductive Ev
  | bet (roomId : Nat) (delta : Int)
  | deal (roomId : Nat)
  deriving DecidableEq, Repr

/-! ## MemStorage methods (storage.ts) -/

def MemStorage.getRoomById (s : Store) (id : Nat) : Option Room :=
  aGet s.rooms id

def MemStorage.getRoomByCode (s : Store) (code : String) : Option Room :=
  (s.rooms.find? fun kv => kv.2.code = code).map (·.2)

def MemStorage.createRoom (s : Store) (ins : InsertRoom) : Store × Room :=
  let id := s.nextId
  let room : Room :=
    { id := id, code := ins.code, hostId := ins.hostId, maxPlayers := ins.maxPlayers,
      currentPlayers := 0, gameState := "waiting", pot := 0, currentBet := 0,
      round := "pre-flop", deck := none, communityCards := none }
  ({ s with rooms := aSet s.rooms id room,
            playersByRoom := aSet s.playersByRoom id [],
            nextId := id + 1 }, room)

def MemStorage.deleteRoom (s : Store) (id : Nat) : Store :=
  { s with rooms := aDel s.rooms id, playersByRoom := aDel s.playersByRoom id }

def MemStorage.updateRoomPlayerCount (s : Store) (id : Nat) (count : Int) : Store :=
  { s with rooms := aUpd s.rooms id fun r => { r with currentPlayers := count } }

def MemStorage.updateRoomGameState (s : Store) (id : Nat)
    (u : RoomGameStateUpdates) : Store :=
  { s with rooms := aUpd s.rooms id fun r =>
      { r with gameState := u.gameState.getD r.gameState,
               round := u.round.getD r.round,
               pot := u.pot.getD r.pot,
               currentBet := u.currentBet.getD r.currentBet,
               deck := match u.deck with | some d => some d | none => r.deck,
               communityCards :=
                 match u.communityCards with | some c => some c | none => r.communityCards } }

def MemStorage.updateRoomCurrentBet (s : Store) (id : Nat) (bet : Int) : Store :=
  { s with rooms := aUpd s.rooms id fun r => { r with currentBet := bet } }

def MemStorage.getPlayerById (s : Store) (id : Nat) : Option Player :=
  aGet s.players id

def MemStorage.getPlayerBySocketId (s : Store) (socketId : Nat) : Option Player :=
  match aGet s.playersBySocket socketId with
  | none => none
  | some pid => aGet s.players pid

def MemStorage.getPlayersByRoomId (s : Store) (roomId : Nat) : List Player :=
  ((aGet s.playersByRoom roomId).getD []).filterMap fun pid => aGet s.players pid

def MemStorage.createPlayer (s : Store) (ins : InsertPlayer) : Store × Player :=
  let id := s.nextId
  let player : Player :=
    { id := id, roomId := ins.roomId, socketId := ins.socketId, name := ins.name,
      chips := ins.chips, hand := none, isConnected := true, isReady := false,
      hasActed := false, currentBet := 0, position := none, isFolded := false }
  let roomPlayers := (aGet s.playersByRoom ins.roomId).getD []
  ({ s with players := aSet s.players id player,
            playersBySocket := aSet s.playersBySocket ins.socketId id,
            playersByRoom := aSet s.playersByRoom ins.roomId (roomPlayers ++ [id]),
            nextId := id + 1 }, player)

def MemStorage.removePlayer (s : Store) (id : Nat) : Store :=
  match aGet s.players id with
  | none => s
  | some player =>
    let roomPlayers := (aGet s.playersByRoom player.roomId).getD []
    { s with playersBySocket := aDel s.playersBySocket player.socketId,
             playersByRoom := aSet s.playersByRoom player.roomId
               (roomPlayers.filter fun pid => pid ≠ id),
             players := aDel s.players id }

def MemStorage.setPlayerConnected (s : Store) (socketId : Nat) (connected : Bool) : Store :=
  match aGet s.playersBySocket socketId with
  | none => s
  | some pid => { s with players := aUpd s.players pid fun p => { p with isConnected := connected } }

def MemStorage.setPlayerReady (s : Store) (socketId : Nat) (ready : Bool) : Store :=
  match aGet s.playersBySocket socketId with
  | none => s
  | some pid => { s with players := aUpd s.players pid fun p => { p with isReady := ready } }

def MemStorage.setPlayerHasActed (s : Store) (id : Nat) (acted : Bool) : Store :=
  { s with players := aUpd s.players id fun p => { p with hasActed := acted } }

def MemStorage.setPlayerFolded (s : Store) (id : Nat) (folded : Bool) : Store :=
  { s with players := aUpd s.players id fun p => { p with isFolded := folded } }

def MemStorage.setPlayerHand (s : Store) (id : Nat) (cards : List Card) : Store :=
  { s with players := aUpd s.players id fun p => { p with hand := some cards } }

/-- `updatePlayerBet(id, additionalBet)`: moves `additionalBet` from the
player's chips into their current bet and into the owning room's pot.
The ghost event records the applied delta and its pot target key. -/
def MemStorage.updatePlayerBet (s : Store) (id : Nat) (additionalBet : Int) :
    Store × List Ev :=
  match aGet s.players id with
  | none => (s, [])
  | some player =>
    let s1 := { s with players := aUpd s.players id fun p =>
      { p with currentBet := p.currentBet + additionalBet,
               chips := p.chips - additionalBet } }
    let s2 := { s1 with rooms := aUpd s1.rooms player.roomId fun r =>
      { r with pot := r.pot + additionalBet } }
    (s2, [Ev.bet player.roomId additionalBet])

/-! ## Deck generator (poker-game.ts createDeck / shuffleDeck) -/

def suitList : List Suit := [Suit.spades, Suit.hearts, Suit.diamonds, Suit.clubs]

def valueList : List CardValue :=
  [CardValue.vA, CardValue.v2, CardValue.v3, CardValue.v4, CardValue.v5,
   CardValue.v6, CardValue.v7, CardValue.v8, CardValue.v9, CardValue.v10,
   CardValue.vJ, CardValue.vQ, CardValue.vK]

def suitIndex : Suit → Nat
  | Suit.spades => 0 | Suit.hearts => 1 | Suit.diamonds => 2 | Suit.clubs => 3

def valueIndex : CardValue → Nat
  | CardValue.vA => 0 | CardValue.v2 => 1 | CardValue.v3 => 2 | CardValue.v4 => 3
  | CardValue.v5 => 4 | CardValue.v6 => 5 | CardValue.v7 => 6 | CardValue.v8 => 7
  | CardValue.v9 => 8 | CardValue.v10 => 9 | CardValue.vJ => 10 | CardValue.vQ => 11
  | CardValue.vK => 12

/-- The 52 (suit, value) combinations in construction order; the per-card uuid
is modelled as a distinct natural derived from its position. -/
def unshuffledDeck : List Card :=
  suitList.flatMap fun st => valueList.map fun v =>
    { suit := st, value := v, id := suitIndex st * 13 + valueIndex v }

/-- One Fisher-Yates swap of positions `i` and `j` in a list. -/
def swapAt (l : List Card) (i j : Nat) : List Card :=
  match l[i]?, l[j]? with
  | some a, some b => (l.set i b).set j a
  | _, _ => l

/-- The Fisher-Yates loop: for `i` from `deck.length - 1` down to `1`, swap
element `i` with element `rand i % (i + 1)` (a uniformly random index in
`[0, i]` in the source). -/
def fisherYates (rand : Nat → Nat) : Nat → List Card → List Card
  | 0, l => l
  | i + 1, l => fisherYates rand i (swapAt l (i + 1) (rand (i + 1) % (i + 2)))

def shuffleDeck (rand : Nat → Nat) (deck : List Card) : List Card :=
  fisherYates rand (deck.length - 1) deck

def createDeck (rand : Nat → Nat) : List Card :=
  shuffleDeck rand unshuffledDeck

/-! ## Game session manager (poker-game.ts PokerGameManager) -/

/-- Result of `leaveRoom` / `dealCards` / `handlePlayerAction`: the source's
`{ success: true }` or `{ success: false, error }`. -/
inductive Res
  | ok
  | err (msg : String)
  deriving DecidableEq, Repr

/-- Result of `joinRoom`: success carries the (possibly pre-existing)
player's id. -/
inductive JRes
  | ok (playerId : Nat)
  | err (msg : String)
  deriving DecidableEq, Repr

/-- `createRoom(socketId, playerName)`: the retry loop that draws a fresh
6-character room code is modelled by passing the finally chosen code as the
`code` argument; room creation itself always succeeds. -/
def PokerGameManager.createRoom (code : String) (s : Store) (socketId : Nat)
    (playerName : String) : Store × String × Nat :=
  let res := MemStorage.createRoom s { code := code, hostId := socketId, maxPlayers := 6 }
  let room := res.2
  let res2 := MemStorage.createPlayer res.1
    { roomId := room.id, socketId := socketId, name := playerName, chips := 1000 }
  let player := res2.2
  let s3 := MemStorage.updateRoomPlayerCount res2.1 room.id 1
  (s3, code, player.id)

def PokerGameManager.joinRoom (s : Store) (socketId : Nat) (playerName : String)
    (roomCode : String) : Store × JRes :=
  match MemStorage.getRoomByCode s roomCode with
  | none => (s, JRes.err "Room not found")
  | some room =>
    if room.currentPlayers ≥ room.maxPlayers then (s, JRes.err "Room is full")
    else
      match MemStorage.getPlayerBySocketId s socketId with
      | some existingPlayer =>
        if existingPlayer.roomId = room.id then
          (MemStorage.setPlayerConnected s socketId true, JRes.ok existingPlayer.id)
        else
          let res := MemStorage.createPlayer s
            { roomId := room.id, socketId := socketId, name := playerName, chips := 1000 }
          (MemStorage.updateRoomPlayerCount res.1 room.id (room.currentPlayers + 1),
           JRes.ok res.2.id)
      | none =>
        let res := MemStorage.createPlayer s
          { roomId := room.id, socketId := socketId, name := playerName, chips := 1000 }
        (MemStorage.updateRoomPlayerCount res.1 room.id (room.currentPlayers + 1),
         JRes.ok res.2.id)

/-- `leaveRoom(socketId)`. The manager's `room` variable aliases the stored
record found at key `player.roomId`, so the emptiness check after
`updateRoomPlayerCount` reads the freshly written count from the store. -/
def PokerGameManager.leaveRoom (s : Store) (socketId : Nat) : Store × Res :=
  match aGet s.playersBySocket socketId with
  | none => (s, Res.err "Player not found")
  | some pid =>
  match aGet s.players pid with
  | none => (s, Res.err "Player not found")
  | some player =>
  match aGet s.rooms player.roomId with
  | none => (s, Res.err "Room not found")
  | some room =>
    let s1 := MemStorage.removePlayer s player.id
    let s2 := MemStorage.updateRoomPlayerCount s1 room.id
      (max 0 (room.currentPlayers - 1))
    let countNow : Int :=
      match aGet s2.rooms player.roomId with
      | some r2 => r2.currentPlayers
      | none => room.currentPlayers
    if countNow ≤ 1 then (MemStorage.deleteRoom s2 room.id, Res.ok)
    else (s2, Res.ok)

/-- The dealing loop: `deck.splice(0, 4)` hands the first four cards of the
remaining deck to each player in enumeration order. -/
def PokerGameManager.dealLoop (s : Store) (ps : List Player) (deck : List Card) :
    Store × List Card :=
  match ps with
  | [] => (s, deck)
  | p :: rest =>
    PokerGameManager.dealLoop (MemStorage.setPlayerHand s p.id (deck.take 4)) rest
      (deck.drop 4)

def PokerGameManager.dealCards (rand : Nat → Nat) (s : Store) (roomId : Nat) :
    Store × Res × List Ev :=
  match aGet s.rooms roomId with
  | none => (s, Res.err "Room not found", [])
  | some room =>
    let players := MemStorage.getPlayersByRoomId s roomId
    if players.length < 2 then
      (s, Res.err "Need at least 2 players to deal cards", [])
    else
      let deck := createDeck rand
      let res := PokerGameManager.dealLoop s players deck
      let s2 := MemStorage.updateRoomGameState res.1 room.id
        { gameState := some "playing", round := some "pre-flop",
          deck := some res.2, communityCards := some [],
          pot := some 0, currentBet := some 0 }
      (s2, Res.ok, [Ev.deal room.id])

/-- `handlePlayerAction(socketId, action, amount)`. JS aliasing is modelled
throughout: `player`/`room` field reads after an awaited storage mutation are
re-read from the store at the keys where the records were found, so in the
all-in branch the `player.chips > room.currentBet` test compares the
already-zeroed chip stack. The raise guard `!amount` is JS falsiness:
a missing amount and an amount of `0` both fail it. -/
def PokerGameManager.handlePlayerAction (s : Store) (socketId : Nat)
    (action : String) (amount : Option Int) : Store × Res × List Ev :=
  match aGet s.playersBySocket socketId with
  | none => (s, Res.err "Player not found", [])
  | some pid =>
  match aGet s.players pid with
  | none => (s, Res.err "Player not found", [])
  | some player =>
  match aGet s.rooms player.roomId with
  | none => (s, Res.err "Room not found", [])
  | some room =>
  if action = "fold" then
    (MemStorage.setPlayerFolded s player.id true, Res.ok, [])
  else if action = "check" then
    if room.currentBet > player.currentBet then
      (s, Res.err "Cannot check when there is a bet to call", [])
    else
      (MemStorage.setPlayerHasActed s player.id true, Res.ok, [])
  else if action = "call" then
    let callAmount := room.currentBet - player.currentBet
    if callAmount > player.chips then
      (s, Res.err "Insufficient chips to call", [])
    else
      let res := MemStorage.updatePlayerBet s player.id callAmount
      (MemStorage.setPlayerHasActed res.1 player.id true, Res.ok, res.2)
  else if action = "raise" then
    match amount with
    | none => (s, Res.err "Raise amount must be greater than current bet", [])
    | some a =>
      if a = 0 then
        (s, Res.err "Raise amount must be greater than current bet", [])
      else if a ≤ room.currentBet then
        (s, Res.err "Raise amount must be greater than current bet", [])
      else if a > player.chips then
        (s, Res.err "Insufficient chips to raise", [])
      else
        let res := MemStorage.updatePlayerBet s player.id (a - player.currentBet)
        let s2 := MemStorage.updateRoomCurrentBet res.1 room.id a
        (MemStorage.setPlayerHasActed s2 player.id true, Res.ok, res.2)
  else if action = "all-in" then
    let res := MemStorage.updatePlayerBet s player.id player.chips
    let s2 := MemStorage.setPlayerHasActed res.1 player.id true
    let chipsNow : Int :=
      match aGet s2.players pid with
      | some q => q.chips
      | none => player.chips
    let betNow : Int :=
      match aGet s2.rooms player.roomId with
      | some r2 => r2.currentBet
      | none => room.currentBet
    if chipsNow > betNow then
      (MemStorage.updateRoomCurrentBet s2 room.id chipsNow, Res.ok, res.2)
    else
      (s2, Res.ok, res.2)
  else
    (s, Res.err "Invalid action", [])

def PokerGameManager.setPlayerReady (s : Store) (socketId : Nat) (ready : Bool) : Store :=
  MemStorage.setPlayerReady s socketId ready

def PokerGameManager.setPlayerConnected (s : Store) (socketId : Nat) (connected : Bool) : Store :=
  MemStorage.setPlayerConnected s socketId connected

/-! ## Operation traces -/

/-- One inbound intent, as dispatched by the gateway to the manager. -/
inductive Op
  | createRoom (code : String) (socketId : Nat) (playerName : String)
  | joinRoom (socketId : Nat) (playerName : String) (roomCode : String)
  | leaveRoom (socketId : Nat)
  | dealCards (rand : Nat → Nat) (roomId : Nat)
  | playerAction (socketId : Nat) (action : String) (amount : Option Int)
  | setReady (socketId : Nat) (ready : Bool)
  | setConnected (socketId : Nat) (connected : Bool)

/-- Run one operation, returning the new store and its ghost event log. -/
def runOp (s : Store) : Op → Store × List Ev
  | Op.createRoom code sid name => ((PokerGameManager.createRoom code s sid name).1, [])
  | Op.joinRoom sid name code => ((PokerGameManager.joinRoom s sid name code).1, [])
  | Op.leaveRoom sid => ((PokerGameManager.leaveRoom s sid).1, [])
  | Op.dealCards rand rid =>
    let res := PokerGameManager.dealCards rand s rid
    (res.1, res.2.2)
  | Op.playerAction sid act amt =>
    let res := PokerGameManager.handlePlayerAction s sid act amt
    (res.1, res.2.2)
  | Op.setReady sid r => (PokerGameManager.setPlayerReady s sid r, [])
  | Op.setConnected sid c => (PokerGameManager.setPlayerConnected s sid c, [])

def runOps (s : Store) : List Op → Store × List Ev
  | [] => (s, [])
  | op :: rest =>
    let r1 := runOp s op
    let r2 := runOps r1.1 rest
    (r2.1, r1.2 ++ r2.2)

/-! ## Store wellformedness and ghost accounting -/

/-- `MemStorage` keys each player record by its own `id`
(`this.players.set(id, player)` with `player.id = id`). -/
def PlayersWF (s : Store) : Prop :=
  ∀ kv ∈ s.players, (kv.2 : Player).id = kv.1

/-- Every existing room key was produced by the uuid generator, so it is
below the fresh-id counter. -/
def RoomsFresh (s : Store) : Prop :=
  ∀ kv ∈ s.rooms, kv.1 < s.nextId

/-- The data-model invariant on players: `chips ≥ 0` and `currentBet ≥ 0`. -/
def NonNegPlayers (s : Store) : Prop :=
  ∀ kv ∈ s.players, 0 ≤ (kv.2 : Player).chips ∧ 0 ≤ (kv.2 : Player).currentBet

instance (s : Store) : Decidable (PlayersWF s) :=
  inferInstanceAs (Decidable (∀ kv ∈ s.players, (kv.2 : Player).id = kv.1))

instance (s : Store) : Decidable (RoomsFresh s) :=
  inferInstanceAs (Decidable (∀ kv ∈ s.rooms, kv.1 < s.nextId))

instance (s : Store) : Decidable (NonNegPlayers s) :=
  inferInstanceAs (Decidable (∀ kv ∈ s.players, 0 ≤ (kv.2 : Player).chips ∧ 0 ≤ (kv.2 : Player).currentBet))

/-- Replay a ghost event log onto a pot accumulator for room key `rid`:
bet deltas add up, a deal resets to zero, events for other rooms are ignored. -/
def potAfter (rid : Nat) (acc : Int) : List Ev → Int
  | [] => acc
  | Ev.bet r d :: rest => potAfter rid (if r = rid then acc + d else acc) rest
  | Ev.deal r :: rest => potAfter rid (if r = rid then 0 else acc) rest

/-- Sum of the deltas of the logged `updatePlayerBet` applications whose pot
target is room key `rid`. -/
def sumBets (rid : Nat) : List Ev → Int
  | [] => 0
  | Ev.bet r d :: rest => (if r = rid then d else 0) + sumBets rid rest
  | Ev.deal _ :: rest => sumBets rid rest

/-- Total chips held by the players seated in room `rid`. -/
def sumChips (s : Store) (rid : Nat) : Int :=
  ((MemStorage.getPlayersByRoomId s rid).map Player.chips).sum

/-! ## Concrete stores used as counterexamples and witnesses -/

/-- A waiting two-player room. -/
def roomW : Room :=
  { id := 0, code := "ABCDEF", hostId := 10, maxPlayers := 6, currentPlayers := 2,
    gameState := "waiting", pot := 0, currentBet := 0, round := "pre-flop",
    deck := none, communityCards := none }

/-- A seated player who has already acted in a previous betting round. -/
def playerW1 : Player :=
  { id := 1, roomId := 0, socketId := 10, name := "alice", chips := 1000, hand := none,
    isConnected := true, isReady := false, hasActed := true, currentBet := 0,
    position := none, isFolded := false }

def playerW2 : Player :=
  { playerW1 with id := 2, socketId := 11, name := "bob", hasActed := false }

/-- Two players seated in room 0; player 1 still has `hasActed = true`. -/
def storeTwo : Store :=
  { rooms := [(0, roomW)], players := [(1, playerW1), (2, playerW2)],
    playersBySocket := [(10, 1), (11, 2)], playersByRoom := [(0, [1, 2])], nextId := 3 }

/-- A room mid-hand with an outstanding bet of 100. -/
def roomB : Room := { roomW with currentBet := 100, gameState := "playing" }

def playerB1 : Player := { playerW1 with chips := 500, hasActed := false }

/-- Player 1 holds 500 chips and faces an outstanding room bet of 100. -/
def storeAllIn : Store :=
  { rooms := [(0, roomB)], players := [(1, playerB1), (2, playerW2)],
    playersBySocket := [(10, 1), (11, 2)], playersByRoom := [(0, [1, 2])], nextId := 3 }

/-- A full room: six seated players, `currentPlayers = maxPlayers = 6`. -/
def roomFull : Room := { roomW with currentPlayers := 6 }

def storeFull : Store :=
  { rooms := [(0, roomFull)],
    players := (List.range 6).map fun i =>
      (i + 1, { playerW1 with id := i + 1, socketId := 10 + i, hasActed := false }),
    playersBySocket := (List.range 6).map fun i => (10 + i, i + 1),
    playersByRoom := [(0, [1, 2, 3, 4, 5, 6])], nextId := 7 }

/-- A three-player room. -/
def roomThree : Room := { roomW with currentPlayers := 3 }

def playerW3 : Player := { playerW1 with id := 3, socketId := 12, name := "carol", hasActed := false }

def storeThree : Store :=
  { rooms := [(0, roomThree)],
    players := [(1, playerW1), (2, playerW2), (3, playerW3)],
    playersBySocket := [(10, 1), (11, 2), (12, 3)],
    playersByRoom := [(0, [1, 2, 3])], nextId := 4 }

/-- The per-room pot bookkeeping state: room key `rid` either holds a room
whose pot is the accumulator, or is absent. -/
def PotState (m : List (Nat × Room)) (rid : Nat) (a : Int) : Prop :=
  (∃ room, aGet m rid = some room ∧ room.pot = a) ∨ aGet m rid = none

/-! ## Association-list algebra -/

theorem aGet_aUpd {α : Type} (m : List (Nat × α)) (k r : Nat) (f : α → α) :
    aGet (aUpd m k f) r = if r = k then (aGet m r).map f else aGet m r := by
  induction m with
  | nil => simp [aGet, aUpd]
  | cons kv rest ih =>
    rcases kv with ⟨k0, v0⟩
    simp only [aUpd, List.map_cons] at *
    by_cases h1 : k0 = k
    · subst h1
      by_cases h2 : r = k0
      · subst h2; simp [aGet]
      · have h3 : ¬ k0 = r := fun h => h2 h.symm
        simp [aGet, h2, h3, ih]
    · by_cases h2 : k0 = r
      · subst h2
        have h3 : ¬ k0 = k := h1
        simp [aGet, h1, h3]
      · simp [aGet, h1, h2, ih]

theorem aGet_aSet {α : Type} (m : List (Nat × α)) (k r : Nat) (v : α) :
    aGet (aSet m k v) r = if r = k then some v else aGet m r := by
  induction m with
  | nil =>
    by_cases h : r = k
    · subst h; simp [aSet, aGet]
    · have h2 : ¬ k = r := fun hh => h hh.symm
      simp [aSet, aGet, h, h2]
  | cons kv rest ih =>
    rcases kv with ⟨k0, v0⟩
    simp only [aSet]
    by_cases h1 : k0 = k
    · subst h1
      by_cases h2 : r = k0
      · subst h2; simp [aGet]
      · have h3 : ¬ k0 = r := fun hh => h2 hh.symm
        simp [aGet, h2, h3]
    · by_cases h2 : k0 = r
      · subst h2
        have h3 : ¬ k0 = k := h1
        simp [aGet, h1, h3]
      · simp [aGet, h1, h2, ih]

theorem aGet_aDel {α : Type} (m : List (Nat × α)) (k r : Nat) :
    aGet (aDel m k) r = if r = k then none else aGet m r := by
  induction m with
  | nil => simp [aGet, aDel]
  | cons kv rest ih =>
    rcases kv with ⟨k0, v0⟩
    simp only [aDel] at *
    by_cases h1 : k0 = k
    · subst h1
      by_cases h2 : r = k0
      · subst h2; simp [aGet, ih]
      · have h3 : ¬ k0 = r := fun hh => h2 hh.symm
        simp [aGet, h2, h3, ih]
    · by_cases h2 : k0 = r
      · subst h2
        have h3 : ¬ k0 = k := h1
        simp [aGet, h1, h3]
      · simp [aGet, h1, h2, ih]

theorem mem_aUpd_key {α : Type} {m : List (Nat × α)} {k : Nat} {f : α → α}
    {kv : Nat × α} (h : kv ∈ aUpd m k f) : ∃ kv0 ∈ m, kv.1 = kv0.1 := by
  simp only [aUpd, List.mem_map] at h
  obtain ⟨kv0, hkv0, heq⟩ := h
  refine ⟨kv0, hkv0, ?_⟩
  subst heq
  by_cases h1 : kv0.1 = k <;> simp [h1]

theorem mem_aSet {α : Type} {m : List (Nat × α)} {k : Nat} {v : α}
    {kv : Nat × α} (h : kv ∈ aSet m k v) : kv = (k, v) ∨ kv ∈ m := by
  induction m with
  | nil => simpa [aSet] using h
  | cons kv0 rest ih =>
    simp only [aSet] at h
    by_cases h1 : kv0.1 = k <;> simp_all [List.mem_cons] <;> tauto

theorem mem_aDel {α : Type} {m : List (Nat × α)} {k : Nat}
    {kv : Nat × α} (h : kv ∈ aDel m k) : kv ∈ m := by
  induction m with
  | nil => simp [aDel] at h
  | cons kv0 rest ih =>
    simp only [aDel] at h
    by_cases h1 : kv0.1 = k
    · simp only [if_pos h1] at h
      exact List.mem_cons_of_mem _ (ih h)
    · simp only [if_neg h1, List.mem_cons] at h
      rcases h with h | h
      · exact h ▸ List.mem_cons_self _ _
      · exact List.mem_cons_of_mem _ (ih h)

theorem aGet_mem {α : Type} {m : List (Nat × α)} {k : Nat} {v : α}
    (h : aGet m k = some v) : (k, v) ∈ m := by
  induction m with
  | nil => simp [aGet] at h
  | cons kv rest ih =>
    rcases kv with ⟨k0, v0⟩
    simp only [aGet] at h
    by_cases h1 : k0 = k
    · simp only [if_pos h1, Option.some.injEq] at h
      subst h1; subst h
      exact List.mem_cons_self _ _
    · simp only [if_neg h1] at h
      exact List.mem_cons_of_mem _ (ih h)

theorem length_swapAt (l : List Card) (i j : Nat) : (swapAt l i j).length = l.length := by
  unfold swapAt
  cases h1 : l[i]? <;> cases h2 : l[j]? <;> simp

theorem length_fisherYates (rand : Nat → Nat) (n : Nat) (l : List Card) :
    (fisherYates rand n l).length = l.length := by
  induction n generalizing l with
  | zero => rfl
  | succ i ih => simp [fisherYates, ih, length_swapAt]

theorem length_createDeck (rand : Nat → Nat) : (createDeck rand).length = 52 := by
  simp [createDeck, shuffleDeck, length_fisherYates]
  rfl


/-! ## Deal-loop helper lemmas -/

theorem dealLoop_rooms (ps : List Player) :
    ∀ s d, (PokerGameManager.dealLoop s ps d).1.rooms = s.rooms := by
  induction ps with
  | nil => intro s d; rfl
  | cons p rest ih =>
    intro s d
    simp only [PokerGameManager.dealLoop]
    rw [ih]
    rfl

theorem dealLoop_nextId (ps : List Player) :
    ∀ s d, (PokerGameManager.dealLoop s ps d).1.nextId = s.nextId := by
  induction ps with
  | nil => intro s d; rfl
  | cons p rest ih =>
    intro s d
    simp only [PokerGameManager.dealLoop]
    rw [ih]
    rfl

theorem dealLoop_players_fields (ps : List Player) :
    ∀ s d k q, aGet (PokerGameManager.dealLoop s ps d).1.players k = some q →
      ∃ p0, aGet s.players k = some p0 ∧ q.hasActed = p0.hasActed ∧
        q.isFolded = p0.isFolded ∧ q.currentBet = p0.currentBet ∧ q.chips = p0.chips := by
  induction ps with
  | nil =>
    intro s d k q h
    exact ⟨q, h, rfl, rfl, rfl, rfl⟩
  | cons p rest ih =>
    intro s d k q h
    simp only [PokerGameManager.dealLoop] at h
    obtain ⟨p1, hp1, e1, e2, e3, e4⟩ := ih _ _ _ _ h
    simp only [MemStorage.setPlayerHand] at hp1
    rw [aGet_aUpd] at hp1
    by_cases hk : k = p.id
    · rw [if_pos hk] at hp1
      cases hg : aGet s.players k with
      | none => rw [hg] at hp1; simp at hp1
      | some p0 =>
        rw [hg] at hp1
        simp only [Option.map_some'] at hp1
        cases hp1
        exact ⟨p0, rfl, e1, e2, e3, e4⟩
    · rw [if_neg hk] at hp1
      exact ⟨p1, hp1, e1, e2, e3, e4⟩

/-! ## C8: failed actions mutate nothing -/

theorem handlePlayerAction_ok_or_unchanged (s : Store) (sid : Nat) (act : String)
    (amt : Option Int) :
    (PokerGameManager.handlePlayerAction s sid act amt).2.1 = Res.ok ∨
    (PokerGameManager.handlePlayerAction s sid act amt).1 = s := by
  unfold PokerGameManager.handlePlayerAction
  cases h1 : aGet s.playersBySocket sid with
  | none => right; rfl
  | some pid =>
    dsimp only
    cases h2 : aGet s.players pid with
    | none => right; rfl
    | some player =>
      dsimp only
      cases h3 : aGet s.rooms player.roomId with
      | none => right; rfl
      | some room =>
        dsimp only
        by_cases hf : act = "fold"
        · rw [if_pos hf]; left; rfl
        · rw [if_neg hf]
          by_cases hc : act = "check"
          · rw [if_pos hc]
            split
            · right; rfl
            · left; rfl
          · rw [if_neg hc]
            by_cases hca : act = "call"
            · rw [if_pos hca]
              split
              · right; rfl
              · left; rfl
            · rw [if_neg hca]
              by_cases hra : act = "raise"
              · rw [if_pos hra]
                cases amt with
                | none => right; rfl
                | some a =>
                  dsimp only
                  split
                  · right; rfl
                  · split
                    · right; rfl
                    · split
                      · right; rfl
                      · left; rfl
              · rw [if_neg hra]
                by_cases hai : act = "all-in"
                · rw [if_pos hai]
                  split
                  · left; rfl
                  · left; rfl
                · rw [if_neg hai]
                  right; rfl

/-- C8: whenever `handlePlayerAction` returns a failure (lookup miss, illegal
check, insufficient chips, invalid raise amount, or unknown action), the store
is completely unchanged: the operation either fully applies or changes
nothing. -/
theorem handlePlayerAction_failure_no_mutation (s : Store) (sid : Nat) (act : String)
    (amt : Option Int)
    (h : (PokerGameManager.handlePlayerAction s sid act amt).2.1 ≠ Res.ok) :
    (PokerGameManager.handlePlayerAction s sid act amt).1 = s := by
  rcases handlePlayerAction_ok_or_unchanged s sid act amt with hok | hid
  · exact absurd hok h
  · exact hid

/-- C8 witness: an illegal check against an outstanding bet of 100 fails and
leaves the concrete store untouched. -/
theorem handlePlayerAction_failure_no_mutation_witness :
    (PokerGameManager.handlePlayerAction storeAllIn 10 "check" none).1 = storeAllIn :=
  handlePlayerAction_failure_no_mutation storeAllIn 10 "check" none (by decide)

/-! ## C2: the all-in branch never raises the room's current bet -/

/-- C2: at a store where player 1 holds a 500-chip stack against
`room.currentBet = 100`, the all-in succeeds, moves the whole stack into the
player's bet and the pot and marks the player as having acted — but
`room.currentBet` stays 100 although the pre-action stack 500 exceeds it.
The source compares `player.chips > room.currentBet` only after the awaited
`updatePlayerBet` has already zeroed the aliased `player.chips`, so the
raise of the room bet that the comparison was written for can never fire. -/
theorem allin_stack_does_not_raise_room_bet :
    playerB1.chips = 500 ∧ roomB.currentBet = 100 ∧
    (PokerGameManager.handlePlayerAction storeAllIn 10 "all-in" none).2.1 = Res.ok ∧
    (aGet (PokerGameManager.handlePlayerAction storeAllIn 10 "all-in" none).1.players 1).map
      Player.chips = some 0 ∧
    (aGet (PokerGameManager.handlePlayerAction storeAllIn 10 "all-in" none).1.players 1).map
      Player.currentBet = some 500 ∧
    (aGet (PokerGameManager.handlePlayerAction storeAllIn 10 "all-in" none).1.players 1).map
      Player.hasActed = some true ∧
    (aGet (PokerGameManager.handlePlayerAction storeAllIn 10 "all-in" none).1.rooms 0).map
      Room.pot = some 500 ∧
    (aGet (PokerGameManager.handlePlayerAction storeAllIn 10 "all-in" none).1.rooms 0).map
      Room.currentBet = some 100 := by
  decide

/-! ## C3: reconnecting into a full room -/

/-- C3 counterexample: in `storeFull`, connection 10 is already seated in the
room with code ABCDEF, yet `joinRoom` fails with Room is full because the
capacity check runs before the reconnection check. -/
theorem joinRoom_reconnect_full_room_fails :
    (MemStorage.getPlayerBySocketId storeFull 10).map Player.roomId = some 0 ∧
    (MemStorage.getRoomByCode storeFull "ABCDEF").map Room.id = some 0 ∧
    (PokerGameManager.joinRoom storeFull 10 "alice" "ABCDEF").2 = JRes.err "Room is full" := by
  decide

/-- C3 (amended): when the connection already maps to a player seated in the
target room AND the room is not full, `joinRoom` succeeds, returns the
existing player's id, and leaves the room table — in particular
`currentPlayers` — unchanged. -/
theorem joinRoom_reconnect_idempotent (s : Store) (sid : Nat) (name : String)
    (code : String) (room : Room) (p : Player)
    (hr : MemStorage.getRoomByCode s code = some room)
    (hfull : room.currentPlayers < room.maxPlayers)
    (hp : MemStorage.getPlayerBySocketId s sid = some p)
    (hroom : p.roomId = room.id) :
    (PokerGameManager.joinRoom s sid name code).2 = JRes.ok p.id ∧
    (PokerGameManager.joinRoom s sid name code).1.rooms = s.rooms := by
  unfold PokerGameManager.joinRoom
  rw [hr]
  dsimp only
  rw [if_neg (not_le.mpr hfull)]
  rw [hp]
  dsimp only
  rw [if_pos hroom]
  refine ⟨rfl, ?_⟩
  unfold MemStorage.setPlayerConnected
  cases aGet s.playersBySocket sid <;> rfl

/-- C3 witness: a two-player room with a free seat; reconnecting connection 10
returns the existing player id 1 and leaves the room table unchanged. -/
theorem joinRoom_reconnect_idempotent_witness :
    (PokerGameManager.joinRoom storeTwo 10 "alice" "ABCDEF").2 = JRes.ok 1 ∧
    (PokerGameManager.joinRoom storeTwo 10 "alice" "ABCDEF").1.rooms = storeTwo.rooms :=
  joinRoom_reconnect_idempotent storeTwo 10 "alice" "ABCDEF" roomW playerW1
    (by decide) (by decide) (by decide) (by decide)

/-! ## C1: dealing does not reset per-player betting fields -/

/-- C1 counterexample: dealing succeeds on a two-player room where player 1
entered with `hasActed = true`, and afterwards player 1 still has
`hasActed = true` — the claimed reset to `false` does not happen. -/
theorem dealCards_does_not_reset_hasActed :
    (PokerGameManager.dealCards (fun _ => 0) storeTwo 0).2.1 = Res.ok ∧
    (aGet (PokerGameManager.dealCards (fun _ => 0) storeTwo 0).1.players 1).map
      Player.hasActed = some true := by
  decide

/-- C1 (amended): a successful deal resets the room's `pot` and `currentBet`
to 0 but leaves every player's `hasActed`, `isFolded`, `currentBet` (and
`chips`) exactly as they were; only hands are rewritten. -/
theorem dealCards_leaves_player_betting_fields (rand : Nat → Nat) (s : Store)
    (rid : Nat) (room : Room)
    (hr : aGet s.rooms rid = some room) (hid : room.id = rid)
    (hok : (PokerGameManager.dealCards rand s rid).2.1 = Res.ok) :
    (∀ k q, aGet (PokerGameManager.dealCards rand s rid).1.players k = some q →
       ∃ p0, aGet s.players k = some p0 ∧ q.hasActed = p0.hasActed ∧
         q.isFolded = p0.isFolded ∧ q.currentBet = p0.currentBet ∧ q.chips = p0.chips) ∧
    (∃ room2, aGet (PokerGameManager.dealCards rand s rid).1.rooms rid = some room2 ∧
       room2.pot = 0 ∧ room2.currentBet = 0) := by
  unfold PokerGameManager.dealCards at hok ⊢
  rw [hr] at hok ⊢
  dsimp only at hok ⊢
  by_cases hlen : (MemStorage.getPlayersByRoomId s rid).length < 2
  · rw [if_pos hlen] at hok
    exact Res.noConfusion hok
  · rw [if_neg hlen] at hok ⊢
    constructor
    · intro k q h
      simp only [MemStorage.updateRoomGameState] at h
      exact dealLoop_players_fields _ _ _ _ _ h
    · simp only [MemStorage.updateRoomGameState]
      rw [dealLoop_rooms, aGet_aUpd, hid]
      rw [if_pos rfl, hr]
      exact ⟨_, rfl, rfl, rfl⟩

/-- C1 witness: dealing on the concrete two-player store; player 2's betting
fields after the deal coincide with those before it. -/
theorem dealCards_leaves_player_betting_fields_witness :
    ∃ q, aGet (PokerGameManager.dealCards (fun _ => 0) storeTwo 0).1.players 2 = some q ∧
      ∃ p0, aGet storeTwo.players 2 = some p0 ∧ q.hasActed = p0.hasActed ∧
        q.isFolded = p0.isFolded ∧ q.currentBet = p0.currentBet ∧ q.chips = p0.chips := by
  have h := dealCards_leaves_player_betting_fields (fun _ => 0) storeTwo 0 roomW rfl rfl
    (by decide)
  exact ⟨_, rfl, h.1 2 _ rfl⟩

/-! ## Further association-list facts -/

theorem mem_aUpd {α : Type} {m : List (Nat × α)} {k : Nat} {f : α → α}
    {kv : Nat × α} (h : kv ∈ aUpd m k f) :
    ∃ kv0 ∈ m, kv.1 = kv0.1 ∧ (kv.2 = kv0.2 ∨ kv.2 = f kv0.2) := by
  simp only [aUpd, List.mem_map] at h
  obtain ⟨kv0, hkv0, heq⟩ := h
  refine ⟨kv0, hkv0, ?_⟩
  subst heq
  by_cases h1 : kv0.1 = k <;> simp [h1]

theorem mem_aDel_key {α : Type} {m : List (Nat × α)} {k : Nat}
    {kv : Nat × α} (h : kv ∈ aDel m k) : kv.1 ≠ k := by
  induction m with
  | nil => simp [aDel] at h
  | cons kv0 rest ih =>
    simp only [aDel] at h
    by_cases h1 : kv0.1 = k
    · rw [if_pos h1] at h
      exact ih h
    · rw [if_neg h1, List.mem_cons] at h
      rcases h with h | h
      · subst h
        exact h1
      · exact ih h

theorem removePlayer_rooms (s : Store) (i : Nat) :
    (MemStorage.removePlayer s i).rooms = s.rooms := by
  unfold MemStorage.removePlayer
  cases aGet s.players i <;> rfl

/-! ## C6: leaving a two-player room deletes it -/

/-- C6: if the leaving player's room records exactly 2 seated players, the
room is deleted and a later lookup by its former code misses; with 3 or more
seated players the room survives. The store's room record is keyed by its own
id (`h4`) and no other room shares the code (`hcode`), as in every store the
source can build. The deletion test reads the freshly decremented count
because the manager's `room` variable aliases the stored record. -/
theorem leaveRoom_deletes_room_iff_two (s : Store) (sid pid : Nat) (p : Player)
    (room : Room)
    (h1 : aGet s.playersBySocket sid = some pid)
    (h2 : aGet s.players pid = some p)
    (h3 : aGet s.rooms p.roomId = some room)
    (h4 : room.id = p.roomId)
    (hcode : ∀ kv ∈ s.rooms, (kv.2 : Room).code = room.code → kv.1 = p.roomId) :
    (PokerGameManager.leaveRoom s sid).2 = Res.ok ∧
    (room.currentPlayers = 2 →
       aGet (PokerGameManager.leaveRoom s sid).1.rooms p.roomId = none ∧
       MemStorage.getRoomByCode (PokerGameManager.leaveRoom s sid).1 room.code = none) ∧
    (3 ≤ room.currentPlayers →
       (aGet (PokerGameManager.leaveRoom s sid).1.rooms p.roomId).isSome = true) := by
  unfold PokerGameManager.leaveRoom
  rw [h1]
  dsimp only
  rw [h2]
  dsimp only
  rw [h3]
  dsimp only
  have hrooms2 : aGet (MemStorage.updateRoomPlayerCount (MemStorage.removePlayer s p.id)
      room.id (max 0 (room.currentPlayers - 1))).rooms p.roomId =
      some { room with currentPlayers := max 0 (room.currentPlayers - 1) } := by
    simp only [MemStorage.updateRoomPlayerCount, removePlayer_rooms]
    rw [aGet_aUpd, if_pos h4.symm, h3]
    rfl
  rw [hrooms2]
  dsimp only
  refine ⟨?_, ?_, ?_⟩
  · by_cases hcond : max (0 : Int) (room.currentPlayers - 1) ≤ 1
    · rw [if_pos hcond]
    · rw [if_neg hcond]
  · intro hc2
    have hcond : max (0 : Int) (room.currentPlayers - 1) ≤ 1 := by
      rw [hc2]; decide
    rw [if_pos hcond]
    dsimp only
    constructor
    · simp only [MemStorage.deleteRoom, MemStorage.updateRoomPlayerCount, removePlayer_rooms]
      rw [aGet_aDel, if_pos h4.symm]
    · simp only [MemStorage.deleteRoom, MemStorage.getRoomByCode,
        MemStorage.updateRoomPlayerCount, removePlayer_rooms]
      rw [Option.map_eq_none', List.find?_eq_none]
      intro kv hkv
      have hne := mem_aDel_key hkv
      have hm := mem_aDel hkv
      obtain ⟨kv0, hkv0, hkey, hval⟩ := mem_aUpd hm
      have hcodeEq : (kv.2 : Room).code = kv0.2.code := by
        rcases hval with h | h <;> rw [h]
      simp only [decide_eq_true_eq]
      intro habs
      rw [hcodeEq] at habs
      have hk0 := hcode kv0 hkv0 habs
      rw [hkey, hk0] at hne
      exact hne h4.symm
  · intro hc3
    have hcond : ¬ max (0 : Int) (room.currentPlayers - 1) ≤ 1 := by
      have := le_max_right (0 : Int) (room.currentPlayers - 1)
      omega
    rw [if_neg hcond]
    dsimp only
    rw [hrooms2]
    rfl

/-- C6 witness: leaving the concrete two-player room deletes it and its code
lookup subsequently misses. -/
theorem leaveRoom_deletes_room_iff_two_witness :
    (PokerGameManager.leaveRoom storeTwo 10).2 = Res.ok ∧
    aGet (PokerGameManager.leaveRoom storeTwo 10).1.rooms 0 = none ∧
    MemStorage.getRoomByCode (PokerGameManager.leaveRoom storeTwo 10).1 "ABCDEF" = none := by
  have h := leaveRoom_deletes_room_iff_two storeTwo 10 1 playerW1 roomW rfl rfl rfl rfl
    (by decide)
  exact ⟨h.1, (h.2.1 rfl).1, (h.2.1 rfl).2⟩

/-! ## C7: the evicted room leaves its last player's record behind -/

/-- C7 counterexample: player 10 leaves the two-player room, the room is torn
down, yet the remaining player is still retrievable by their connection id —
`deleteRoom` removes only the room and the room's player-id index, never the
player records or the socket index. -/
theorem leaveRoom_solo_player_survives :
    (PokerGameManager.leaveRoom storeTwo 10).2 = Res.ok ∧
    aGet (PokerGameManager.leaveRoom storeTwo 10).1.rooms 0 = none ∧
    MemStorage.getPlayerBySocketId (PokerGameManager.leaveRoom storeTwo 10).1 11 =
      some playerW2 := by
  decide

/-- C7 (amended): when leaving tears the room down, the room is deleted but
the remaining solo player's record survives: lookup by their connection id
still returns them unchanged. -/
theorem leaveRoom_teardown_keeps_solo_player (s : Store) (sid pid : Nat) (p : Player)
    (room : Room) (sid2 pid2 : Nat) (p2 : Player)
    (h1 : aGet s.playersBySocket sid = some pid)
    (h2 : aGet s.players pid = some p)
    (hpk : p.id = pid)
    (h3 : aGet s.rooms p.roomId = some room)
    (h4 : room.id = p.roomId)
    (hc : room.currentPlayers ≤ 2)
    (hs2 : aGet s.playersBySocket sid2 = some pid2)
    (hsid2 : sid2 ≠ p.socketId)
    (hpid2 : pid2 ≠ p.id)
    (hp2 : aGet s.players pid2 = some p2) :
    (PokerGameManager.leaveRoom s sid).2 = Res.ok ∧
    aGet (PokerGameManager.leaveRoom s sid).1.rooms p.roomId = none ∧
    MemStorage.getPlayerBySocketId (PokerGameManager.leaveRoom s sid).1 sid2 = some p2 := by
  have h2' : aGet s.players p.id = some p := by rw [hpk]; exact h2
  unfold PokerGameManager.leaveRoom
  rw [h1]
  dsimp only
  rw [h2]
  dsimp only
  rw [h3]
  dsimp only
  have hrooms2 : aGet (MemStorage.updateRoomPlayerCount (MemStorage.removePlayer s p.id)
      room.id (max 0 (room.currentPlayers - 1))).rooms p.roomId =
      some { room with currentPlayers := max 0 (room.currentPlayers - 1) } := by
    simp only [MemStorage.updateRoomPlayerCount, removePlayer_rooms]
    rw [aGet_aUpd, if_pos h4.symm, h3]
    rfl
  rw [hrooms2]
  dsimp only
  have hcond : max (0 : Int) (room.currentPlayers - 1) ≤ 1 :=
    max_le (by norm_num) (by omega)
  rw [if_pos hcond]
  dsimp only
  refine ⟨rfl, ?_, ?_⟩
  · simp only [MemStorage.deleteRoom, MemStorage.updateRoomPlayerCount, removePlayer_rooms]
    rw [aGet_aDel, if_pos h4.symm]
  · simp only [MemStorage.getPlayerBySocketId, MemStorage.deleteRoom,
      MemStorage.updateRoomPlayerCount, MemStorage.removePlayer]
    rw [h2']
    dsimp only
    rw [aGet_aDel, if_neg hsid2, hs2]
    dsimp only
    rw [aGet_aDel, if_neg hpid2, hp2]

/-- C7 witness: player 11 leaves the two-player room; the room is torn down
but player 10's record is still found by connection id. -/
theorem leaveRoom_teardown_keeps_solo_player_witness :
    (PokerGameManager.leaveRoom storeTwo 11).2 = Res.ok ∧
    aGet (PokerGameManager.leaveRoom storeTwo 11).1.rooms 0 = none ∧
    MemStorage.getPlayerBySocketId (PokerGameManager.leaveRoom storeTwo 11).1 10 =
      some playerW1 :=
  leaveRoom_teardown_keeps_solo_player storeTwo 11 2 playerW2 roomW 10 1 playerW1
    rfl rfl rfl rfl rfl (by decide) rfl (by decide) (by decide) rfl

/-! ## C9: deal round trip -/

theorem dealLoop_deck (ps : List Player) :
    ∀ s d, (PokerGameManager.dealLoop s ps d).2 = d.drop (4 * ps.length) := by
  induction ps with
  | nil => intro s d; rfl
  | cons p0 rest ih =>
    intro s d
    simp only [PokerGameManager.dealLoop]
    rw [ih, List.drop_drop]
    congr 1
    simp only [List.length_cons]
    ring

theorem dealLoop_frame (ps : List Player) :
    ∀ s d k, k ∉ ps.map Player.id →
      aGet (PokerGameManager.dealLoop s ps d).1.players k = aGet s.players k := by
  induction ps with
  | nil => intro s d k hk; rfl
  | cons p0 rest ih =>
    intro s d k hk
    simp only [List.map_cons, List.mem_cons, not_or] at hk
    obtain ⟨hk0, hkrest⟩ := hk
    simp only [PokerGameManager.dealLoop]
    rw [ih _ _ _ hkrest]
    simp only [MemStorage.setPlayerHand]
    rw [aGet_aUpd, if_neg hk0]

theorem isSome_setPlayerHand (s : Store) (j : Nat) (cs : List Card) (k : Nat) :
    (aGet (MemStorage.setPlayerHand s j cs).players k).isSome = (aGet s.players k).isSome := by
  simp only [MemStorage.setPlayerHand]
  rw [aGet_aUpd]
  by_cases hk : k = j
  · rw [if_pos hk]
    cases aGet s.players k <;> rfl
  · rw [if_neg hk]

theorem dealLoop_hands (ps : List Player) :
    ∀ s d, (∀ p ∈ ps, (aGet s.players p.id).isSome = true) →
      4 * ps.length ≤ d.length →
      ∀ p ∈ ps, ∃ q, aGet (PokerGameManager.dealLoop s ps d).1.players p.id = some q ∧
        ∃ cs, q.hand = some cs ∧ cs.length = 4 := by
  induction ps with
  | nil =>
    intro s d hpres hlen p hp
    simp at hp
  | cons p0 rest ih =>
    intro s d hpres hlen p hp
    have hpres1 : ∀ r ∈ rest, (aGet (MemStorage.setPlayerHand s p0.id (d.take 4)).players r.id).isSome = true := by
      intro r hr
      rw [isSome_setPlayerHand]
      exact hpres r (List.mem_cons_of_mem _ hr)
    have hlen1 : 4 * rest.length ≤ (d.drop 4).length := by
      rw [List.length_drop]
      simp only [List.length_cons] at hlen
      omega
    have htake : (d.take 4).length = 4 := by
      rw [List.length_take]
      simp only [List.length_cons] at hlen
      omega
    rcases List.mem_cons.mp hp with heq | hrest
    · subst heq
      by_cases hmem : p.id ∈ rest.map Player.id
      · obtain ⟨q0, hq0, hq0id⟩ := List.mem_map.mp hmem
        have hres := ih (MemStorage.setPlayerHand s p.id (d.take 4)) (d.drop 4) hpres1 hlen1 q0 hq0
        rw [hq0id] at hres
        simpa [PokerGameManager.dealLoop] using hres
      · simp only [PokerGameManager.dealLoop]
        rw [dealLoop_frame rest _ _ _ hmem]
        simp only [MemStorage.setPlayerHand]
        rw [aGet_aUpd, if_pos rfl]
        have hpr := hpres p (List.mem_cons_self _ _)
        cases hg : aGet s.players p.id with
        | none => rw [hg] at hpr; simp at hpr
        | some q => exact ⟨_, rfl, _, rfl, htake⟩
    · have hres := ih (MemStorage.setPlayerHand s p0.id (d.take 4)) (d.drop 4) hpres1 hlen1 p hrest
      simpa [PokerGameManager.dealLoop] using hres

theorem mem_getPlayersByRoomId {s : Store} {rid : Nat} {p : Player}
    (hw : PlayersWF s) (h : p ∈ MemStorage.getPlayersByRoomId s rid) :
    aGet s.players p.id = some p := by
  unfold MemStorage.getPlayersByRoomId at h
  rw [List.mem_filterMap] at h
  obtain ⟨pid, _, hget⟩ := h
  have hid : p.id = pid := hw _ (aGet_mem hget)
  rw [hid]
  exact hget

/-- C9: on a room whose seated-player list has between 2 and 6 entries (6 is
the fixed `maxPlayers` capacity, so every reachable room qualifies), dealing
succeeds, every seated player ends up with a 4-card hand, and the room's
stored remaining deck holds exactly `52 - 4 * playerCount` of the fresh
52-card deck. -/
theorem dealCards_round_trip (rand : Nat → Nat) (s : Store) (rid : Nat) (room : Room)
    (hw : PlayersWF s)
    (hr : aGet s.rooms rid = some room) (hid : room.id = rid)
    (h2 : 2 ≤ (MemStorage.getPlayersByRoomId s rid).length)
    (h6 : (MemStorage.getPlayersByRoomId s rid).length ≤ 6) :
    (PokerGameManager.dealCards rand s rid).2.1 = Res.ok ∧
    (∀ p ∈ MemStorage.getPlayersByRoomId s rid,
       ∃ q, aGet (PokerGameManager.dealCards rand s rid).1.players p.id = some q ∧
         ∃ cs, q.hand = some cs ∧ cs.length = 4) ∧
    (∃ room2, aGet (PokerGameManager.dealCards rand s rid).1.rooms rid = some room2 ∧
       ∃ rest, room2.deck = some rest ∧
         rest.length = 52 - 4 * (MemStorage.getPlayersByRoomId s rid).length) := by
  unfold PokerGameManager.dealCards
  rw [hr]
  dsimp only
  have hlen : ¬ (MemStorage.getPlayersByRoomId s rid).length < 2 := by omega
  rw [if_neg hlen]
  refine ⟨rfl, ?_, ?_⟩
  · intro p hp
    simp only [MemStorage.updateRoomGameState]
    have hpres : ∀ p2 ∈ MemStorage.getPlayersByRoomId s rid,
        (aGet s.players p2.id).isSome = true := by
      intro p2 hp2
      rw [mem_getPlayersByRoomId hw hp2]
      rfl
    have hdl : 4 * (MemStorage.getPlayersByRoomId s rid).length ≤ (createDeck rand).length := by
      rw [length_createDeck]
      omega
    exact dealLoop_hands _ _ _ hpres hdl p hp
  · simp only [MemStorage.updateRoomGameState]
    rw [dealLoop_rooms, aGet_aUpd, hid, if_pos rfl, hr]
    refine ⟨_, rfl, _, rfl, ?_⟩
    rw [dealLoop_deck, List.length_drop, length_createDeck]

/-- C9 witness: dealing on the concrete two-player store gives player 1 a
4-card hand and leaves 44 cards in the room's deck. -/
theorem dealCards_round_trip_witness :
    (PokerGameManager.dealCards (fun _ => 0) storeTwo 0).2.1 = Res.ok ∧
    (∃ q, aGet (PokerGameManager.dealCards (fun _ => 0) storeTwo 0).1.players 1 = some q ∧
       ∃ cs, q.hand = some cs ∧ cs.length = 4) ∧
    (∃ room2, aGet (PokerGameManager.dealCards (fun _ => 0) storeTwo 0).1.rooms 0 = some room2 ∧
       ∃ rest, room2.deck = some rest ∧ rest.length = 44) := by
  have h := dealCards_round_trip (fun _ => 0) storeTwo 0 roomW (by decide) rfl rfl
    (by decide) (by decide)
  exact ⟨h.1, h.2.1 playerW1 (by decide), h.2.2⟩

/-! ## C5: no operation drives chips negative -/

theorem fst_ite {α β : Type} {c : Prop} [Decidable c] (a b : α × β) :
    (if c then a else b).1 = if c then a.1 else b.1 := by
  by_cases h : c <;> simp [h]

theorem players_ite {c : Prop} [Decidable c] (a b : Store) :
    (if c then a else b).players = if c then a.players else b.players := by
  by_cases h : c <;> simp [h]

theorem deleteRoom_players (s : Store) (i : Nat) :
    (MemStorage.deleteRoom s i).players = s.players := rfl

theorem updateRoomPlayerCount_players (s : Store) (i : Nat) (c : Int) :
    (MemStorage.updateRoomPlayerCount s i c).players = s.players := rfl

theorem updateRoomCurrentBet_players (s : Store) (i : Nat) (b : Int) :
    (MemStorage.updateRoomCurrentBet s i b).players = s.players := rfl

theorem chipsNN_aUpd_of_bound {m : List (Nat × Player)} {j : Nat} {f : Player → Player}
    (h : ∀ k q, aGet m k = some q → 0 ≤ q.chips)
    (hb : ∀ p, aGet m j = some p → 0 ≤ (f p).chips) :
    ∀ k q, aGet (aUpd m j f) k = some q → 0 ≤ q.chips := by
  intro k q hk
  rw [aGet_aUpd] at hk
  by_cases hkj : k = j
  · subst hkj
    rw [if_pos rfl] at hk
    cases hg : aGet m k with
    | none => rw [hg] at hk; simp at hk
    | some p =>
      rw [hg] at hk
      simp only [Option.map_some'] at hk
      cases hk
      exact hb p hg
  · rw [if_neg hkj] at hk
    exact h _ _ hk

theorem chipsNN_aUpd_of_preserve {m : List (Nat × Player)} {j : Nat} {f : Player → Player}
    (h : ∀ k q, aGet m k = some q → 0 ≤ q.chips)
    (hf : ∀ p, (f p).chips = p.chips) :
    ∀ k q, aGet (aUpd m j f) k = some q → 0 ≤ q.chips :=
  chipsNN_aUpd_of_bound h (fun p hp => by rw [hf]; exact h _ _ hp)

theorem chipsNN_aSet {m : List (Nat × Player)} {j : Nat} {v : Player}
    (h : ∀ k q, aGet m k = some q → 0 ≤ q.chips) (hv : 0 ≤ v.chips) :
    ∀ k q, aGet (aSet m j v) k = some q → 0 ≤ q.chips := by
  intro k q hk
  rw [aGet_aSet] at hk
  by_cases hkj : k = j
  · rw [if_pos hkj] at hk
    cases hk
    exact hv
  · rw [if_neg hkj] at hk
    exact h _ _ hk

theorem chipsNN_aDel {m : List (Nat × Player)} {j : Nat}
    (h : ∀ k q, aGet m k = some q → 0 ≤ q.chips) :
    ∀ k q, aGet (aDel m j) k = some q → 0 ≤ q.chips := by
  intro k q hk
  rw [aGet_aDel] at hk
  by_cases hkj : k = j
  · rw [if_pos hkj] at hk
    simp at hk
  · rw [if_neg hkj] at hk
    exact h _ _ hk

/-- C5: from any store satisfying the data-model invariants (players keyed by
their own id, every player's `chips` and `currentBet` non-negative — §3 of the
data model), every operation — in particular `handlePlayerAction` with any of
check, call, raise, fold, all-in, succeeding or failing — leaves every
player's chips non-negative. -/
theorem chips_stay_nonneg (s : Store) (op : Op)
    (hw : PlayersWF s) (hnn : NonNegPlayers s) :
    ∀ k q, aGet (runOp s op).1.players k = some q → 0 ≤ q.chips := by
  have hbase : ∀ k q, aGet s.players k = some q → 0 ≤ q.chips :=
    fun _ _ hk => (hnn _ (aGet_mem hk)).1
  cases op with
  | createRoom code sid name =>
    simp only [runOp, PokerGameManager.createRoom, MemStorage.createRoom,
      MemStorage.createPlayer, MemStorage.updateRoomPlayerCount]
    exact chipsNN_aSet hbase (by norm_num)
  | joinRoom sid name code =>
    simp only [runOp]
    unfold PokerGameManager.joinRoom MemStorage.getPlayerBySocketId
      MemStorage.setPlayerConnected
    cases hg : MemStorage.getRoomByCode s code with
    | none => exact hbase
    | some room =>
      dsimp only
      split
      · exact hbase
      · cases hbs : aGet s.playersBySocket sid with
        | none =>
          dsimp only
          simp only [MemStorage.createPlayer, MemStorage.updateRoomPlayerCount]
          exact chipsNN_aSet hbase (by norm_num)
        | some pid =>
          dsimp only
          cases hpp : aGet s.players pid with
          | none =>
            dsimp only
            simp only [MemStorage.createPlayer, MemStorage.updateRoomPlayerCount]
            exact chipsNN_aSet hbase (by norm_num)
          | some ep =>
            dsimp only
            split
            · dsimp only
              refine chipsNN_aUpd_of_preserve hbase ?_
              intro p
              rfl
            · simp only [MemStorage.createPlayer, MemStorage.updateRoomPlayerCount]
              exact chipsNN_aSet hbase (by norm_num)
  | leaveRoom sid =>
    simp only [runOp]
    unfold PokerGameManager.leaveRoom
    cases h1 : aGet s.playersBySocket sid with
    | none => exact hbase
    | some pid =>
      dsimp only
      cases h2 : aGet s.players pid with
      | none => exact hbase
      | some player =>
        dsimp only
        cases h3 : aGet s.rooms player.roomId with
        | none => exact hbase
        | some room =>
          dsimp only
          intro k q hk
          rw [fst_ite, players_ite, deleteRoom_players, ite_self,
            updateRoomPlayerCount_players] at hk
          revert hk
          revert k q
          unfold MemStorage.removePlayer
          cases h4 : aGet s.players player.id with
          | none => exact hbase
          | some p2 =>
            dsimp only
            exact chipsNN_aDel hbase
  | dealCards rand rid =>
    simp only [runOp]
    unfold PokerGameManager.dealCards
    cases hg : aGet s.rooms rid with
    | none => exact hbase
    | some room =>
      dsimp only
      split
      · exact hbase
      · intro k q hk
        simp only [MemStorage.updateRoomGameState] at hk
        obtain ⟨p0, hp0, _, _, _, hch⟩ := dealLoop_players_fields _ _ _ _ _ hk
        rw [hch]
        exact hbase _ _ hp0
  | playerAction sid act amt =>
    simp only [runOp]
    unfold PokerGameManager.handlePlayerAction
    cases h1 : aGet s.playersBySocket sid with
    | none => exact hbase
    | some pid =>
      dsimp only
      cases h2 : aGet s.players pid with
      | none => exact hbase
      | some player =>
        dsimp only
        cases h3 : aGet s.rooms player.roomId with
        | none => exact hbase
        | some room =>
          dsimp only
          have hpid : player.id = pid := hw _ (aGet_mem h2)
          have h2' : aGet s.players player.id = some player := by rw [hpid]; exact h2
          have hcb : 0 ≤ player.currentBet := (hnn _ (aGet_mem h2)).2
          by_cases hf : act = "fold"
          · rw [if_pos hf]
            simp only [MemStorage.setPlayerFolded]
            refine chipsNN_aUpd_of_preserve hbase ?_
            intro p
            rfl
          · rw [if_neg hf]
            by_cases hc : act = "check"
            · rw [if_pos hc]
              split
              · exact hbase
              · simp only [MemStorage.setPlayerHasActed]
                refine chipsNN_aUpd_of_preserve hbase ?_
                intro p
                rfl
            · rw [if_neg hc]
              by_cases hca : act = "call"
              · rw [if_pos hca]
                split
                next hguard => exact hbase
                next hguard =>
                  simp only [MemStorage.setPlayerHasActed, MemStorage.updatePlayerBet]
                  rw [h2']
                  dsimp only
                  refine chipsNN_aUpd_of_preserve (chipsNN_aUpd_of_bound hbase ?_) ?_
                  · intro p hp
                    rw [h2'] at hp
                    injection hp with hpp
                    subst hpp
                    dsimp only
                    omega
                  · intro p
                    rfl
              · rw [if_neg hca]
                by_cases hra : act = "raise"
                · rw [if_pos hra]
                  cases amt with
                  | none => exact hbase
                  | some a =>
                    dsimp only
                    split
                    · exact hbase
                    · split
                      · exact hbase
                      · split
                        next hguard => exact hbase
                        next hguard =>
                          simp only [MemStorage.setPlayerHasActed,
                            MemStorage.updateRoomCurrentBet, MemStorage.updatePlayerBet]
                          rw [h2']
                          dsimp only
                          refine chipsNN_aUpd_of_preserve (chipsNN_aUpd_of_bound hbase ?_) ?_
                          · intro p hp
                            rw [h2'] at hp
                            injection hp with hpp
                            subst hpp
                            dsimp only
                            omega
                          · intro p
                            rfl
                · rw [if_neg hra]
                  by_cases hai : act = "all-in"
                  · rw [if_pos hai]
                    intro k q hk
                    rw [fst_ite, players_ite, updateRoomCurrentBet_players, ite_self] at hk
                    revert hk
                    revert k q
                    simp only [MemStorage.setPlayerHasActed, MemStorage.updatePlayerBet]
                    rw [h2']
                    dsimp only
                    refine chipsNN_aUpd_of_preserve (chipsNN_aUpd_of_bound hbase ?_) ?_
                    · intro p hp
                      rw [h2'] at hp
                      injection hp with hpp
                      subst hpp
                      dsimp only
                      omega
                    · intro p
                      rfl
                  · rw [if_neg hai]
                    exact hbase
  | setReady sid r =>
    simp only [runOp, PokerGameManager.setPlayerReady]
    unfold MemStorage.setPlayerReady
    cases aGet s.playersBySocket sid with
    | none => exact hbase
    | some pid =>
      dsimp only
      refine chipsNN_aUpd_of_preserve hbase ?_
      intro p
      rfl
  | setConnected sid c =>
    simp only [runOp, PokerGameManager.setPlayerConnected]
    unfold MemStorage.setPlayerConnected
    cases aGet s.playersBySocket sid with
    | none => exact hbase
    | some pid =>
      dsimp only
      refine chipsNN_aUpd_of_preserve hbase ?_
      intro p
      rfl

/-- C5 witness: player 1 calls the outstanding bet of 100 from a 500-chip
stack; their chips stay non-negative. -/
theorem chips_stay_nonneg_witness :
    ∃ q, aGet (runOp storeAllIn (Op.playerAction 10 "call" none)).1.players 1 = some q ∧
      0 ≤ q.chips := by
  have h := chips_stay_nonneg storeAllIn (Op.playerAction 10 "call" none)
    (by decide) (by decide)
  exact ⟨_, rfl, h 1 _ rfl⟩

/-! ## C10: chip conservation -/

theorem sumchips_aUpd_untouched (ids : List Nat) :
    ∀ (m : List (Nat × Player)) (j : Nat) (f : Player → Player), ids.count j = 0 →
      ((ids.filterMap fun i => aGet (aUpd m j f) i).map Player.chips).sum
        = ((ids.filterMap fun i => aGet m i).map Player.chips).sum := by
  induction ids with
  | nil => intro m j f hc; rfl
  | cons i rest ih =>
    intro m j f hc
    have hij : i ≠ j := by
      intro heq
      subst heq
      simp [List.count_cons] at hc
    have hrest : rest.count j = 0 := by
      simp [List.count_cons] at hc
      exact hc.1
    simp only [List.filterMap_cons]
    rw [aGet_aUpd, if_neg hij]
    cases aGet m i with
    | none => exact ih m j f hrest
    | some q =>
      simp only [List.map_cons, List.sum_cons]
      rw [ih m j f hrest]

theorem sumchips_aUpd_one (ids : List Nat) :
    ∀ (m : List (Nat × Player)) (j : Nat) (f : Player → Player) (p : Player),
      ids.count j = 1 → aGet m j = some p →
      ((ids.filterMap fun i => aGet (aUpd m j f) i).map Player.chips).sum
        = ((ids.filterMap fun i => aGet m i).map Player.chips).sum - p.chips + (f p).chips := by
  induction ids with
  | nil => intro m j f p hc hp; simp [List.count_nil] at hc
  | cons i rest ih =>
    intro m j f p hc hp
    by_cases hij : i = j
    · subst hij
      have hrest : rest.count i = 0 := by
        simp [List.count_cons] at hc
        omega
      simp only [List.filterMap_cons]
      rw [aGet_aUpd, if_pos rfl, hp]
      simp only [Option.map_some', List.map_cons, List.sum_cons]
      rw [sumchips_aUpd_untouched rest m i f hrest]
      ring
    · have hrest : rest.count j = 1 := by
        simp [List.count_cons, hij] at hc
        simpa using hc
      simp only [List.filterMap_cons]
      rw [aGet_aUpd, if_neg hij]
      cases aGet m i with
      | none => exact ih m j f p hrest hp
      | some q =>
        simp only [List.map_cons, List.sum_cons]
        rw [ih m j f p hrest hp]
        ring

theorem sumchips_aUpd_pres (ids : List Nat) :
    ∀ (m : List (Nat × Player)) (j : Nat) (f : Player → Player),
      (∀ p, (f p).chips = p.chips) →
      ((ids.filterMap fun i => aGet (aUpd m j f) i).map Player.chips).sum
        = ((ids.filterMap fun i => aGet m i).map Player.chips).sum := by
  induction ids with
  | nil => intro m j f hf; rfl
  | cons i rest ih =>
    intro m j f hf
    simp only [List.filterMap_cons]
    rw [aGet_aUpd]
    by_cases hij : i = j
    · rw [if_pos hij]
      cases aGet m i with
      | none => exact ih m j f hf
      | some q =>
        simp only [Option.map_some', List.map_cons, List.sum_cons]
        rw [ih m j f hf, hf]
    · rw [if_neg hij]
      cases aGet m i with
      | none => exact ih m j f hf
      | some q =>
        simp only [List.map_cons, List.sum_cons]
        rw [ih m j f hf]

theorem setPlayerHasActed_rooms (s : Store) (i : Nat) (b : Bool) :
    (MemStorage.setPlayerHasActed s i b).rooms = s.rooms := rfl

theorem setPlayerFolded_rooms (s : Store) (i : Nat) (b : Bool) :
    (MemStorage.setPlayerFolded s i b).rooms = s.rooms := rfl

/-- C10: `updatePlayerBet` moves exactly its delta between the player's
chips and currentBet (their sum is unchanged) and adds exactly the delta to
the owning room's pot; consequently `room.pot + Σ chips` over the room's
players is invariant under every successful `handlePlayerAction`. The
hypotheses are the store invariants the source maintains: records keyed by
their own ids and the acting player listed exactly once in their room's
player list. -/
theorem chip_conservation (s : Store) (sid pid : Nat) (p : Player) (room : Room)
    (act : String) (amt : Option Int)
    (h1 : aGet s.playersBySocket sid = some pid)
    (h2 : aGet s.players pid = some p)
    (hpk : p.id = pid)
    (h3 : aGet s.rooms p.roomId = some room)
    (hrk : room.id = p.roomId)
    (hcnt : ((aGet s.playersByRoom p.roomId).getD []).count pid = 1)
    (hok : (PokerGameManager.handlePlayerAction s sid act amt).2.1 = Res.ok) :
    (∀ j d q, aGet s.players j = some q →
       ∃ q2, aGet (MemStorage.updatePlayerBet s j d).1.players j = some q2 ∧
         q2.chips + q2.currentBet = q.chips + q.currentBet ∧
         (∀ r0, aGet s.rooms q.roomId = some r0 →
            ∃ r2, aGet (MemStorage.updatePlayerBet s j d).1.rooms q.roomId = some r2 ∧
              r2.pot = r0.pot + d)) ∧
    (∃ room2,
       aGet (PokerGameManager.handlePlayerAction s sid act amt).1.rooms p.roomId = some room2 ∧
       room2.pot + sumChips (PokerGameManager.handlePlayerAction s sid act amt).1 p.roomId =
         room.pot + sumChips s p.roomId) := by
  have h2' : aGet s.players p.id = some p := by rw [hpk]; exact h2
  have hcnt' : ((aGet s.playersByRoom p.roomId).getD []).count p.id = 1 := by
    rw [hpk]; exact hcnt
  constructor
  · intro j d q hq
    unfold MemStorage.updatePlayerBet
    rw [hq]
    try dsimp only
    refine ⟨{ q with currentBet := q.currentBet + d, chips := q.chips - d }, ?_, ?_, ?_⟩
    · rw [aGet_aUpd, if_pos rfl, hq]
      rfl
    · try dsimp only
      ring
    · intro r0 hr0
      refine ⟨{ r0 with pot := r0.pot + d }, ?_, ?_⟩
      · rw [aGet_aUpd, if_pos rfl, hr0]
        rfl
      · rfl
  · unfold PokerGameManager.handlePlayerAction
    rw [h1]
    try dsimp only
    rw [h2]
    try dsimp only
    rw [h3]
    try dsimp only
    by_cases hf : act = "fold"
    · rw [if_pos hf]
      try try dsimp only
      refine ⟨room, h3, ?_⟩
      have hs : sumChips (MemStorage.setPlayerFolded s p.id true) p.roomId
          = sumChips s p.roomId := by
        simp only [sumChips, MemStorage.getPlayersByRoomId, MemStorage.setPlayerFolded]
        try dsimp only
        exact sumchips_aUpd_pres _ _ _ _ (fun q => rfl)
      rw [hs]
    · rw [if_neg hf]
      by_cases hc : act = "check"
      · rw [if_pos hc]
        split
        · exact ⟨room, h3, rfl⟩
        · try try dsimp only
          refine ⟨room, h3, ?_⟩
          have hs : sumChips (MemStorage.setPlayerHasActed s p.id true) p.roomId
              = sumChips s p.roomId := by
            simp only [sumChips, MemStorage.getPlayersByRoomId, MemStorage.setPlayerHasActed]
            try dsimp only
            exact sumchips_aUpd_pres _ _ _ _ (fun q => rfl)
          rw [hs]
      · rw [if_neg hc]
        by_cases hca : act = "call"
        · rw [if_pos hca]
          split
          next hguard => exact ⟨room, h3, rfl⟩
          next hguard =>
            try try dsimp only
            simp only [MemStorage.setPlayerHasActed, MemStorage.updatePlayerBet]
            rw [h2']
            try dsimp only
            refine ⟨{ room with pot := room.pot + (room.currentBet - p.currentBet) }, ?_, ?_⟩
            · rw [aGet_aUpd, if_pos rfl, h3]
              rfl
            · simp only [sumChips, MemStorage.getPlayersByRoomId]
              try dsimp only
              rw [sumchips_aUpd_pres _ _ _ (fun p1 => { p1 with hasActed := true }) (fun q => rfl)]
              rw [sumchips_aUpd_one _ _ _ _ p hcnt' h2']
              try dsimp only
              ring
        · rw [if_neg hca]
          by_cases hra : act = "raise"
          · rw [if_pos hra]
            cases amt with
            | none => exact ⟨room, h3, rfl⟩
            | some a =>
              try dsimp only
              split
              · exact ⟨room, h3, rfl⟩
              · split
                · exact ⟨room, h3, rfl⟩
                · split
                  next hguard => exact ⟨room, h3, rfl⟩
                  next hguard =>
                    try try dsimp only
                    simp only [MemStorage.setPlayerHasActed,
                      MemStorage.updateRoomCurrentBet, MemStorage.updatePlayerBet]
                    rw [h2']
                    try dsimp only
                    refine ⟨{ room with pot := room.pot + (a - p.currentBet), currentBet := a }, ?_, ?_⟩
                    · rw [aGet_aUpd, if_pos hrk.symm]
                      rw [aGet_aUpd, if_pos rfl, h3]
                      rfl
                    · simp only [sumChips, MemStorage.getPlayersByRoomId]
                      try dsimp only
                      rw [sumchips_aUpd_pres _ _ _ (fun p1 => { p1 with hasActed := true }) (fun q => rfl)]
                      rw [sumchips_aUpd_one _ _ _ _ p hcnt' h2']
                      try dsimp only
                      ring
          · rw [if_neg hra]
            by_cases hai : act = "all-in"
            · rw [if_pos hai]
              try try dsimp only
              have hcN : aGet (MemStorage.setPlayerHasActed (MemStorage.updatePlayerBet s p.id p.chips).1 p.id true).players pid = some { p with currentBet := p.currentBet + p.chips, chips := p.chips - p.chips, hasActed := true } := by
                simp only [MemStorage.setPlayerHasActed, MemStorage.updatePlayerBet]
                rw [h2']
                try dsimp only
                rw [aGet_aUpd, if_pos hpk.symm, aGet_aUpd, if_pos hpk.symm, h2]
                rfl
              have hbN : aGet (MemStorage.setPlayerHasActed (MemStorage.updatePlayerBet s p.id p.chips).1 p.id true).rooms p.roomId = some { room with pot := room.pot + p.chips } := by
                simp only [MemStorage.setPlayerHasActed, MemStorage.updatePlayerBet]
                rw [h2']
                try dsimp only
                rw [aGet_aUpd, if_pos rfl, h3]
                rfl
              rw [hcN, hbN]
              try dsimp only
              split
              · refine ⟨{ room with pot := room.pot + p.chips, currentBet := p.chips - p.chips }, ?_, ?_⟩
                · simp only [MemStorage.updateRoomCurrentBet]
                  rw [aGet_aUpd, if_pos hrk.symm, hbN]
                  rfl
                · simp only [sumChips, MemStorage.getPlayersByRoomId,
                    MemStorage.updateRoomCurrentBet, MemStorage.setPlayerHasActed,
                    MemStorage.updatePlayerBet]
                  rw [h2']
                  try dsimp only
                  rw [sumchips_aUpd_pres _ _ _ (fun p1 => { p1 with hasActed := true }) (fun q => rfl)]
                  rw [sumchips_aUpd_one _ _ _ _ p hcnt' h2']
                  try dsimp only
                  ring
              · refine ⟨{ room with pot := room.pot + p.chips }, hbN, ?_⟩
                simp only [sumChips, MemStorage.getPlayersByRoomId,
                  MemStorage.setPlayerHasActed, MemStorage.updatePlayerBet]
                rw [h2']
                try dsimp only
                rw [sumchips_aUpd_pres _ _ _ (fun p1 => { p1 with hasActed := true }) (fun q => rfl)]
                rw [sumchips_aUpd_one _ _ _ _ p hcnt' h2']
                try dsimp only
                ring
            · rw [if_neg hai]
              exact ⟨room, h3, rfl⟩

/-- C10 witness: player 1 calls 100 in the concrete store; the pot plus the
room's total chips is unchanged. -/
theorem chip_conservation_witness :
    ∃ room2,
      aGet (PokerGameManager.handlePlayerAction storeAllIn 10 "call" none).1.rooms 0 =
        some room2 ∧
      room2.pot + sumChips (PokerGameManager.handlePlayerAction storeAllIn 10 "call" none).1 0 =
        roomB.pot + sumChips storeAllIn 0 := by
  have h := chip_conservation storeAllIn 10 1 playerB1 roomB "call" none rfl rfl rfl rfl rfl
    (by decide) (by decide)
  exact h.2

/-! ## C4: after a deal, the pot is the sum of the bet deltas since that deal -/

theorem potAfter_append (rid : Nat) (e1 : List Ev) :
    ∀ (a : Int) (e2 : List Ev), potAfter rid a (e1 ++ e2) = potAfter rid (potAfter rid a e1) e2 := by
  induction e1 with
  | nil => intro a e2; rfl
  | cons e rest ih =>
    intro a e2
    cases e with
    | bet r d => simp only [List.cons_append, List.append_eq, potAfter, ih]
    | deal r => simp only [List.cons_append, List.append_eq, potAfter, ih]

theorem potAfter_no_deal (rid : Nat) (evs : List Ev) :
    ∀ a : Int, (∀ e ∈ evs, e ≠ Ev.deal rid) →
      potAfter rid a evs = a + sumBets rid evs := by
  induction evs with
  | nil => intro a hno; simp [potAfter, sumBets]
  | cons e rest ih =>
    intro a hno
    have hrest : ∀ e ∈ rest, e ≠ Ev.deal rid :=
      fun e he => hno e (List.mem_cons_of_mem _ he)
    cases e with
    | bet r d =>
      simp only [potAfter, sumBets]
      rw [ih _ hrest]
      by_cases hr : r = rid
      · rw [if_pos hr, if_pos hr]
        ring
      · rw [if_neg hr, if_neg hr]
        ring
    | deal r =>
      have hr : r ≠ rid := by
        intro heq
        exact hno (Ev.deal r) (List.mem_cons_self _ _) (by rw [heq])
      simp only [potAfter, sumBets]
      rw [if_neg hr, ih _ hrest]

theorem potState_aUpd_pres {m : List (Nat × Room)} {rid : Nat} {a : Int} {k : Nat}
    {f : Room → Room} (hf : ∀ r, (f r).pot = r.pot) (h : PotState m rid a) :
    PotState (aUpd m k f) rid a := by
  rcases h with ⟨room, hg, hp⟩ | hg
  · rw [PotState, aGet_aUpd]
    by_cases hk : rid = k
    · rw [if_pos hk, hg]
      exact Or.inl ⟨f room, rfl, by rw [hf]; exact hp⟩
    · rw [if_neg hk]
      exact Or.inl ⟨room, hg, hp⟩
  · rw [PotState, aGet_aUpd]
    by_cases hk : rid = k
    · rw [if_pos hk, hg]
      exact Or.inr rfl
    · rw [if_neg hk]
      exact Or.inr hg

theorem potState_bump {m : List (Nat × Room)} {rid : Nat} {a : Int} {k : Nat} (d : Int)
    (h : PotState m rid a) :
    PotState (aUpd m k fun r => { r with pot := r.pot + d }) rid
      (if k = rid then a + d else a) := by
  rcases h with ⟨room, hg, hp⟩ | hg
  · rw [PotState, aGet_aUpd]
    by_cases hk : rid = k
    · rw [if_pos hk]
      subst hk
      rw [hg, if_pos rfl]
      exact Or.inl ⟨_, rfl, by dsimp only; rw [hp]⟩
    · have hk2 : ¬ k = rid := fun hh => hk hh.symm
      rw [if_neg hk, if_neg hk2]
      exact Or.inl ⟨room, hg, hp⟩
  · rw [PotState, aGet_aUpd]
    by_cases hk : rid = k
    · rw [if_pos hk, hg]
      exact Or.inr rfl
    · rw [if_neg hk]
      exact Or.inr hg

theorem potState_deal {m : List (Nat × Room)} {rid : Nat} {a : Int} {k : Nat}
    {f : Room → Room} (hf : ∀ r, (f r).pot = 0) (h : PotState m rid a) :
    PotState (aUpd m k f) rid (if k = rid then 0 else a) := by
  rcases h with ⟨room, hg, hp⟩ | hg
  · rw [PotState, aGet_aUpd]
    by_cases hk : rid = k
    · rw [if_pos hk]
      subst hk
      rw [hg, if_pos rfl]
      exact Or.inl ⟨_, rfl, hf room⟩
    · have hk2 : ¬ k = rid := fun hh => hk hh.symm
      rw [if_neg hk, if_neg hk2]
      exact Or.inl ⟨room, hg, hp⟩
  · rw [PotState, aGet_aUpd]
    by_cases hk : rid = k
    · rw [if_pos hk, hg]
      exact Or.inr rfl
    · rw [if_neg hk]
      exact Or.inr hg

theorem potState_aDel {m : List (Nat × Room)} {rid : Nat} {a : Int} {k : Nat}
    (h : PotState m rid a) : PotState (aDel m k) rid a := by
  rw [PotState, aGet_aDel]
  by_cases hk : rid = k
  · rw [if_pos hk]
    exact Or.inr rfl
  · rw [if_neg hk]
    exact h

theorem potState_aSet_fresh {m : List (Nat × Room)} {rid : Nat} {a : Int} {k : Nat}
    {v : Room} (hne : rid ≠ k) (h : PotState m rid a) : PotState (aSet m k v) rid a := by
  rw [PotState, aGet_aSet, if_neg hne]
  exact h

theorem keysLT_aUpd {α : Type} {m : List (Nat × α)} {k : Nat} {f : α → α} {n : Nat}
    (h : ∀ kv ∈ m, kv.1 < n) : ∀ kv ∈ aUpd m k f, kv.1 < n := by
  intro kv hkv
  obtain ⟨kv0, h0, hk⟩ := mem_aUpd_key hkv
  rw [hk]
  exact h _ h0

theorem keysLT_aDel {α : Type} {m : List (Nat × α)} {k : Nat} {n : Nat}
    (h : ∀ kv ∈ m, kv.1 < n) : ∀ kv ∈ aDel m k, kv.1 < n :=
  fun _ hkv => h _ (mem_aDel hkv)

theorem keysLT_aSet {α : Type} {m : List (Nat × α)} {k : Nat} {v : α} {n : Nat}
    (h : ∀ kv ∈ m, kv.1 < n) (hk : k < n) : ∀ kv ∈ aSet m k v, kv.1 < n := by
  intro kv hkv
  rcases mem_aSet hkv with rfl | hm
  · exact hk
  · exact h _ hm

theorem keysLT_mono {α : Type} {m : List (Nat × α)} {n n' : Nat} (hle : n ≤ n')
    (h : ∀ kv ∈ m, kv.1 < n) : ∀ kv ∈ m, kv.1 < n' :=
  fun kv hkv => lt_of_lt_of_le (h kv hkv) hle

theorem setPlayerConnected_rooms (s : Store) (sid : Nat) (c : Bool) :
    (MemStorage.setPlayerConnected s sid c).rooms = s.rooms := by
  unfold MemStorage.setPlayerConnected
  cases aGet s.playersBySocket sid <;> rfl

theorem setPlayerConnected_nextId (s : Store) (sid : Nat) (c : Bool) :
    (MemStorage.setPlayerConnected s sid c).nextId = s.nextId := by
  unfold MemStorage.setPlayerConnected
  cases aGet s.playersBySocket sid <;> rfl

theorem setPlayerReady_rooms (s : Store) (sid : Nat) (r : Bool) :
    (MemStorage.setPlayerReady s sid r).rooms = s.rooms := by
  unfold MemStorage.setPlayerReady
  cases aGet s.playersBySocket sid <;> rfl

theorem setPlayerReady_nextId (s : Store) (sid : Nat) (r : Bool) :
    (MemStorage.setPlayerReady s sid r).nextId = s.nextId := by
  unfold MemStorage.setPlayerReady
  cases aGet s.playersBySocket sid <;> rfl

theorem removePlayer_nextId (s : Store) (i : Nat) :
    (MemStorage.removePlayer s i).nextId = s.nextId := by
  unfold MemStorage.removePlayer
  cases aGet s.players i <;> rfl

theorem runOp_pot (op : Op) (s : Store) (rid : Nat) (a : Int)
    (hfresh : RoomsFresh s) (hn : rid < s.nextId)
    (h : PotState s.rooms rid a) :
    RoomsFresh (runOp s op).1 ∧ rid < (runOp s op).1.nextId ∧
    PotState (runOp s op).1.rooms rid (potAfter rid a (runOp s op).2) := by
  cases op with
  | createRoom code sid name =>
    simp only [runOp, PokerGameManager.createRoom, MemStorage.createRoom,
      MemStorage.createPlayer, MemStorage.updateRoomPlayerCount]
    try dsimp only
    have hne : rid ≠ s.nextId := by omega
    have hmono : s.nextId ≤ s.nextId + 1 + 1 := by omega
    have hlt : s.nextId < s.nextId + 1 + 1 := by omega
    refine ⟨?_, ?_, ?_⟩
    · intro kv hkv
      try dsimp only at hkv
      exact keysLT_aUpd (keysLT_aSet (keysLT_mono hmono hfresh) hlt) kv hkv
    · omega
    · try dsimp only
      exact potState_aUpd_pres (fun r => rfl) (potState_aSet_fresh hne h)
  | joinRoom sid name code =>
    simp only [runOp]
    unfold PokerGameManager.joinRoom
    cases hg : MemStorage.getRoomByCode s code with
    | none => exact ⟨hfresh, hn, h⟩
    | some room0 =>
      try dsimp only
      split
      · exact ⟨hfresh, hn, h⟩
      · cases hbs : MemStorage.getPlayerBySocketId s sid with
        | some ep =>
          try dsimp only
          split
          · refine ⟨?_, ?_, ?_⟩
            · unfold RoomsFresh
              rw [setPlayerConnected_rooms, setPlayerConnected_nextId]
              exact hfresh
            · rw [setPlayerConnected_nextId]
              exact hn
            · rw [setPlayerConnected_rooms]
              exact h
          · simp only [MemStorage.createPlayer, MemStorage.updateRoomPlayerCount]
            try dsimp only
            have hmono : s.nextId ≤ s.nextId + 1 := by omega
            refine ⟨?_, ?_, ?_⟩
            · intro kv hkv
              try dsimp only at hkv
              exact keysLT_aUpd (keysLT_mono hmono hfresh) kv hkv
            · omega
            · try dsimp only
              exact potState_aUpd_pres (fun r => rfl) h
        | none =>
          simp only [MemStorage.createPlayer, MemStorage.updateRoomPlayerCount]
          try dsimp only
          have hmono : s.nextId ≤ s.nextId + 1 := by omega
          refine ⟨?_, ?_, ?_⟩
          · intro kv hkv
            try dsimp only at hkv
            exact keysLT_aUpd (keysLT_mono hmono hfresh) kv hkv
          · omega
          · try dsimp only
            exact potState_aUpd_pres (fun r => rfl) h
  | leaveRoom sid =>
    simp only [runOp]
    unfold PokerGameManager.leaveRoom
    cases h1 : aGet s.playersBySocket sid with
    | none => exact ⟨hfresh, hn, h⟩
    | some pid =>
      try dsimp only
      cases h2 : aGet s.players pid with
      | none => exact ⟨hfresh, hn, h⟩
      | some player =>
        try dsimp only
        cases h3 : aGet s.rooms player.roomId with
        | none => exact ⟨hfresh, hn, h⟩
        | some room0 =>
          try dsimp only
          split
          · refine ⟨?_, ?_, ?_⟩
            · unfold RoomsFresh MemStorage.deleteRoom MemStorage.updateRoomPlayerCount
              try dsimp only
              rw [removePlayer_rooms, removePlayer_nextId]
              exact keysLT_aDel (keysLT_aUpd hfresh)
            · simp only [MemStorage.deleteRoom, MemStorage.updateRoomPlayerCount]
              try dsimp only
              rw [removePlayer_nextId]
              exact hn
            · simp only [MemStorage.deleteRoom, MemStorage.updateRoomPlayerCount]
              try dsimp only
              rw [removePlayer_rooms]
              exact potState_aDel (potState_aUpd_pres (fun r => rfl) h)
          · refine ⟨?_, ?_, ?_⟩
            · unfold RoomsFresh MemStorage.updateRoomPlayerCount
              try dsimp only
              rw [removePlayer_rooms, removePlayer_nextId]
              exact keysLT_aUpd hfresh
            · simp only [MemStorage.updateRoomPlayerCount]
              try dsimp only
              rw [removePlayer_nextId]
              exact hn
            · simp only [MemStorage.updateRoomPlayerCount]
              try dsimp only
              rw [removePlayer_rooms]
              exact potState_aUpd_pres (fun r => rfl) h
  | dealCards rand rid0 =>
    simp only [runOp]
    unfold PokerGameManager.dealCards
    cases hg : aGet s.rooms rid0 with
    | none => exact ⟨hfresh, hn, h⟩
    | some room0 =>
      try dsimp only
      split
      · exact ⟨hfresh, hn, h⟩
      · refine ⟨?_, ?_, ?_⟩
        · unfold RoomsFresh MemStorage.updateRoomGameState
          try dsimp only
          rw [dealLoop_rooms, dealLoop_nextId]
          exact keysLT_aUpd hfresh
        · simp only [MemStorage.updateRoomGameState]
          try dsimp only
          rw [dealLoop_nextId]
          exact hn
        · simp only [MemStorage.updateRoomGameState]
          try dsimp only
          rw [dealLoop_rooms]
          exact potState_deal (fun r => rfl) h
  | playerAction sid act amt =>
    simp only [runOp]
    unfold PokerGameManager.handlePlayerAction
    cases h1 : aGet s.playersBySocket sid with
    | none => exact ⟨hfresh, hn, h⟩
    | some pid =>
      try dsimp only
      cases h2 : aGet s.players pid with
      | none => exact ⟨hfresh, hn, h⟩
      | some player =>
        try dsimp only
        cases h3 : aGet s.rooms player.roomId with
        | none => exact ⟨hfresh, hn, h⟩
        | some room0 =>
          try dsimp only
          by_cases hf : act = "fold"
          · rw [if_pos hf]
            exact ⟨hfresh, hn, h⟩
          · rw [if_neg hf]
            by_cases hc : act = "check"
            · rw [if_pos hc]
              split
              · exact ⟨hfresh, hn, h⟩
              · exact ⟨hfresh, hn, h⟩
            · rw [if_neg hc]
              by_cases hca : act = "call"
              · rw [if_pos hca]
                split
                · exact ⟨hfresh, hn, h⟩
                · unfold MemStorage.setPlayerHasActed MemStorage.updatePlayerBet
                  cases h4 : aGet s.players player.id with
                  | none => exact ⟨hfresh, hn, h⟩
                  | some q =>
                    try dsimp only
                    refine ⟨?_, hn, potState_bump _ h⟩
                    intro kv hkv
                    try dsimp only at hkv
                    exact keysLT_aUpd hfresh kv hkv
              · rw [if_neg hca]
                by_cases hra : act = "raise"
                · rw [if_pos hra]
                  cases amt with
                  | none => exact ⟨hfresh, hn, h⟩
                  | some amtv =>
                    try dsimp only
                    split
                    · exact ⟨hfresh, hn, h⟩
                    · split
                      · exact ⟨hfresh, hn, h⟩
                      · split
                        · exact ⟨hfresh, hn, h⟩
                        · unfold MemStorage.setPlayerHasActed MemStorage.updateRoomCurrentBet
                            MemStorage.updatePlayerBet
                          cases h4 : aGet s.players player.id with
                          | none =>
                            try dsimp only
                            refine ⟨?_, hn, potState_aUpd_pres (fun r => rfl) h⟩
                            intro kv hkv
                            try dsimp only at hkv
                            exact keysLT_aUpd hfresh kv hkv
                          | some q =>
                            try dsimp only
                            refine ⟨?_, hn, potState_aUpd_pres (fun r => rfl) (potState_bump _ h)⟩
                            intro kv hkv
                            try dsimp only at hkv
                            exact keysLT_aUpd (keysLT_aUpd hfresh) kv hkv
                · rw [if_neg hra]
                  by_cases hai : act = "all-in"
                  · rw [if_pos hai]
                    split
                    · unfold MemStorage.setPlayerHasActed MemStorage.updateRoomCurrentBet
                        MemStorage.updatePlayerBet
                      cases h4 : aGet s.players player.id with
                      | none =>
                        try dsimp only
                        refine ⟨?_, hn, potState_aUpd_pres (fun r => rfl) h⟩
                        intro kv hkv
                        try dsimp only at hkv
                        exact keysLT_aUpd hfresh kv hkv
                      | some q =>
                        try dsimp only
                        refine ⟨?_, hn, potState_aUpd_pres (fun r => rfl) (potState_bump _ h)⟩
                        intro kv hkv
                        try dsimp only at hkv
                        exact keysLT_aUpd (keysLT_aUpd hfresh) kv hkv
                    · unfold MemStorage.setPlayerHasActed MemStorage.updatePlayerBet
                      cases h4 : aGet s.players player.id with
                      | none =>
                        try dsimp only
                        exact ⟨hfresh, hn, h⟩
                      | some q =>
                        try dsimp only
                        refine ⟨?_, hn, potState_bump _ h⟩
                        intro kv hkv
                        try dsimp only at hkv
                        exact keysLT_aUpd hfresh kv hkv
                  · rw [if_neg hai]
                    exact ⟨hfresh, hn, h⟩
  | setReady sid r =>
    simp only [runOp, PokerGameManager.setPlayerReady]
    refine ⟨?_, ?_, ?_⟩
    · unfold RoomsFresh
      rw [setPlayerReady_rooms, setPlayerReady_nextId]
      exact hfresh
    · rw [setPlayerReady_nextId]
      exact hn
    · rw [setPlayerReady_rooms]
      exact h
  | setConnected sid c =>
    simp only [runOp, PokerGameManager.setPlayerConnected]
    refine ⟨?_, ?_, ?_⟩
    · unfold RoomsFresh
      rw [setPlayerConnected_rooms, setPlayerConnected_nextId]
      exact hfresh
    · rw [setPlayerConnected_nextId]
      exact hn
    · rw [setPlayerConnected_rooms]
      exact h

theorem runOps_pot (ops : List Op) : ∀ (s : Store) (rid : Nat) (a : Int),
    RoomsFresh s → rid < s.nextId → PotState s.rooms rid a →
    RoomsFresh (runOps s ops).1 ∧ rid < (runOps s ops).1.nextId ∧
    PotState (runOps s ops).1.rooms rid (potAfter rid a (runOps s ops).2) := by
  induction ops with
  | nil =>
    intro s rid a hf hn h
    exact ⟨hf, hn, h⟩
  | cons op rest ih =>
    intro s rid a hf hn h
    have h1 := runOp_pot op s rid a hf hn h
    have h2 := ih (runOp s op).1 rid (potAfter rid a (runOp s op).2) h1.1 h1.2.1 h1.2.2
    have hfst : (runOps s (op :: rest)).1 = (runOps (runOp s op).1 rest).1 := rfl
    have hsnd : (runOps s (op :: rest)).2 = (runOp s op).2 ++ (runOps (runOp s op).1 rest).2 :=
      rfl
    refine ⟨?_, ?_, ?_⟩
    · rw [hfst]
      exact h2.1
    · rw [hfst]
      exact h2.2.1
    · rw [hfst, hsnd, potAfter_append]
      exact h2.2.2

theorem potState_deal_self {m : List (Nat × Room)} {k : Nat} {a : Int}
    {f : Room → Room} (hf : ∀ r, (f r).pot = 0) (h : PotState m k a) :
    PotState (aUpd m k f) k 0 := by
  have h1 := potState_deal (k := k) hf h
  rw [if_pos rfl] at h1
  exact h1

theorem dealCards_potState (rand : Nat → Nat) (s : Store) (roomId : Nat) (room : Room)
    (hfresh : RoomsFresh s)
    (hr : aGet s.rooms roomId = some room) (hid : room.id = roomId)
    (hok : (PokerGameManager.dealCards rand s roomId).2.1 = Res.ok) :
    RoomsFresh (PokerGameManager.dealCards rand s roomId).1 ∧
    roomId < (PokerGameManager.dealCards rand s roomId).1.nextId ∧
    PotState (PokerGameManager.dealCards rand s roomId).1.rooms roomId 0 ∧
    (PokerGameManager.dealCards rand s roomId).2.2 = [Ev.deal roomId] := by
  have hlt : roomId < s.nextId := hfresh _ (aGet_mem hr)
  unfold PokerGameManager.dealCards at hok ⊢
  rw [hr] at hok ⊢
  dsimp only at hok ⊢
  by_cases hlen : (MemStorage.getPlayersByRoomId s roomId).length < 2
  · rw [if_pos hlen] at hok
    exact Res.noConfusion hok
  · rw [if_neg hlen]
    unfold MemStorage.updateRoomGameState
    refine ⟨?_, ?_, ?_, by rw [hid]⟩
    · intro kv hkv
      try dsimp only at hkv
      rw [dealLoop_rooms] at hkv
      have hkv2 := keysLT_aUpd (n := s.nextId) hfresh kv hkv
      try dsimp only
      rw [dealLoop_nextId]
      exact hkv2
    · try dsimp only
      rw [dealLoop_nextId]
      exact hlt
    · try dsimp only
      rw [dealLoop_rooms, hid]
      exact potState_deal_self (fun r => rfl) (Or.inl ⟨room, hr, rfl⟩)

/-- C4: for every room and every operation sequence run after a successful
`dealCards` on that room (with no further deal of the same room in between),
the stored room's `pot` equals the sum of the deltas of the successful
`updatePlayerBet` applications whose target is that room: the deal resets the
pot to 0, each logged bet event adds its delta, and no other operation
changes the pot. Hypotheses: room keys are below the fresh-id counter and the
room record is keyed by its own `id`, invariants of every store the source
builds. -/
theorem pot_equals_sum_of_bet_deltas
    (s : Store) (rand : Nat → Nat) (roomId : Nat) (room : Room)
    (ops : List Op) (room2 : Room)
    (hfresh : RoomsFresh s)
    (hr : aGet s.rooms roomId = some room) (hid : room.id = roomId)
    (hok : (PokerGameManager.dealCards rand s roomId).2.1 = Res.ok)
    (hnodeal : ∀ e ∈ (runOps (PokerGameManager.dealCards rand s roomId).1 ops).2,
      e ≠ Ev.deal roomId)
    (hfinal : aGet (runOps (PokerGameManager.dealCards rand s roomId).1 ops).1.rooms roomId
      = some room2) :
    room2.pot = sumBets roomId (runOps (PokerGameManager.dealCards rand s roomId).1 ops).2 := by
  obtain ⟨hf1, hn1, hp1, _⟩ := dealCards_potState rand s roomId room hfresh hr hid hok
  obtain ⟨_, _, hp2⟩ := runOps_pot ops _ roomId 0 hf1 hn1 hp1
  rw [potAfter_no_deal roomId _ 0 hnodeal] at hp2
  rcases hp2 with ⟨room3, hg, hp⟩ | hg
  · rw [hfinal] at hg
    injection hg with hg2
    rw [hg2, hp]
    exact zero_add _
  · rw [hfinal] at hg
    exact Option.noConfusion hg

theorem pot_equals_sum_of_bet_deltas_witness :
    (PokerGameManager.dealCards (fun _ => 0) storeTwo 0).2.1 = Res.ok ∧
    ∃ room2,
      aGet (runOps (PokerGameManager.dealCards (fun _ => 0) storeTwo 0).1
        [Op.playerAction 10 "all-in" none]).1.rooms 0 = some room2 ∧
      room2.pot = sumBets 0 (runOps (PokerGameManager.dealCards (fun _ => 0) storeTwo 0).1
        [Op.playerAction 10 "all-in" none]).2 ∧
      room2.pot = 1000 := by
  have hsome : (aGet (runOps (PokerGameManager.dealCards (fun _ => 0) storeTwo 0).1
      [Op.playerAction 10 "all-in" none]).1.rooms 0).isSome = true := by decide
  obtain ⟨room2, hfin⟩ := Option.isSome_iff_exists.mp hsome
  have h := pot_equals_sum_of_bet_deltas storeTwo (fun _ => 0) 0 roomW
    [Op.playerAction 10 "all-in" none] room2 (by decide) rfl rfl (by decide) (by decide) hfin
  refine ⟨by decide, room2, hfin, h, ?_⟩
  rw [h]
  decide
